import Mathlib

/-!
Verification of the dispatch-simulator core of the repository
(`models/simulator/state.py`, `models/simulator/run_simulation.py`,
`models/simulator/assignment_strategy.py`, `models/cost/*`) as a shallow
embedding in Lean.

Modelling conventions:
* Python dicts become association lists that keep insertion order
  (Python 3.7+ dicts iterate in insertion order), or maps into `Option`
  for the read-only `waybill_lookup`.
* Python floats become rationals `ℚ`; `1e9` is the exact rational
  `1000000000`.
* A Python `KeyError` becomes an `Option` result (`none` = the call raised).
* `scipy.optimize.linear_sum_assignment` is library code from outside the
  repository; it is
  modelled by its documented contract (a maximum-cardinality pairing of
  globally minimal total cost) through an executable exhaustive-search
  reference implementation.
-/

namespace Meituan

/-- Courier status; the `'AVAILABLE'` / `'BUSY'` strings of `state.py`. -/
inductive Status where
  | AVAILABLE
  | BUSY
deriving DecidableEq, Repr

/-- One courier's mutable state dict (`state.py`): status, the time its
current task ends, and its current location. -/
structure CState where
  status : Status
  becomes_available_at : Int
  lat : ℚ
  lng : ℚ
deriving DecidableEq, Repr

/-- The `courier_states` dict: courier id to state, in insertion order. -/
abbrev CourierStates := List (Nat × CState)

/-- One row of the list returned by `get_available_couriers`. -/
structure Snapshot where
  courier_id : Nat
  rider_lat : ℚ
  rider_lng : ℚ
deriving DecidableEq, Repr

/-- Embedding of `state.get_available_couriers` (lines 52–87): walk the
courier dict in order; a courier whose status is AVAILABLE or whose busy
period has ended is emitted, and a BUSY courier whose period has ended is
flipped to AVAILABLE (the query mutates the store).  Returns the emitted
snapshot list together with the updated store. -/
def get_available_couriers (current_time : Int) :
    CourierStates → List Snapshot × CourierStates
  | [] => ([], [])
  | (cid, st) :: rest =>
    let r := get_available_couriers current_time rest
    if st.status = Status.AVAILABLE ∨ st.becomes_available_at ≤ current_time then
      let st' := if st.status = Status.BUSY ∧ st.becomes_available_at ≤ current_time then
          { st with status := Status.AVAILABLE }
        else st
      (⟨cid, st.lat, st.lng⟩ :: r.1, (cid, st') :: r.2)
    else (r.1, (cid, st) :: r.2)

/-- Embedding of `state.update_courier_after_assignment` (lines 90–106):
set the named courier BUSY until `dispatch_time + task_duration` at the
delivery location.  A `courier_id` missing from the dict raises `KeyError`
in Python before any write happens; that is modelled as `none`. -/
def update_courier_after_assignment (courier_id : Nat) (courier_states : CourierStates)
    (dispatch_time : Int) (delivery_location : ℚ × ℚ) (task_duration : Int) :
    Option CourierStates :=
  if courier_id ∈ courier_states.map Prod.fst then
    some (courier_states.map (fun e =>
      if e.1 = courier_id then
        (e.1, ⟨Status.BUSY, dispatch_time + task_duration,
               delivery_location.1, delivery_location.2⟩)
      else e))
  else none

/-- Reading one key of a courier dict (`courier_states[cid]` as a query). -/
def lookupState (courier_id : Nat) (s : CourierStates) : Option CState :=
  (s.find? (fun e => e.1 == courier_id)).map Prod.snd

/-! Helper lemmas about the courier state store. -/

theorem update_keys_eq {cid : Nat} {s s' : CourierStates} {T : Int} {loc : ℚ × ℚ} {D : Int}
    (h : update_courier_after_assignment cid s T loc D = some s') :
    s'.map Prod.fst = s.map Prod.fst := by
  unfold update_courier_after_assignment at h
  split at h
  · cases h
    simp only [List.map_map]
    apply List.map_congr_left
    intro e _
    by_cases he : e.1 = cid <;> simp [he]
  · cases h

theorem update_mem_some {cid : Nat} {s : CourierStates} {T : Int} {loc : ℚ × ℚ} {D : Int}
    (h : cid ∈ s.map Prod.fst) :
    update_courier_after_assignment cid s T loc D =
      some (s.map (fun e =>
        if e.1 = cid then (e.1, ⟨Status.BUSY, T + D, loc.1, loc.2⟩) else e)) := by
  unfold update_courier_after_assignment
  simp [h]

theorem update_pred_comp (cid c : Nat) (T : Int) (loc : ℚ × ℚ) (D : Int) :
    ((fun (e : Nat × CState) => e.1 == c) ∘ (fun e =>
      if e.1 = cid then (e.1, ⟨Status.BUSY, T + D, loc.1, loc.2⟩) else e)) =
    (fun (e : Nat × CState) => e.1 == c) := by
  funext e
  by_cases he : e.1 = cid <;> simp [he]

theorem update_lookup_self {cid : Nat} {s s' : CourierStates} {T : Int} {loc : ℚ × ℚ} {D : Int}
    (h : update_courier_after_assignment cid s T loc D = some s') :
    lookupState cid s' = some ⟨Status.BUSY, T + D, loc.1, loc.2⟩ := by
  have hmem : cid ∈ s.map Prod.fst := by
    unfold update_courier_after_assignment at h
    split at h
    · assumption
    · cases h
  rw [update_mem_some hmem] at h
  injection h with h
  subst h
  rcases List.mem_map.mp hmem with ⟨e₀, he₀, hfst⟩
  have hsome : (s.find? (fun e => e.1 == cid)).isSome :=
    List.find?_isSome.mpr ⟨e₀, he₀, by simp [hfst]⟩
  rcases Option.isSome_iff_exists.mp hsome with ⟨e, hfind⟩
  have he1 : e.1 = cid := by simpa using List.find?_some hfind
  unfold lookupState
  rw [List.find?_map, update_pred_comp, hfind]
  simp [he1]

theorem update_lookup_other {cid c : Nat} {s s' : CourierStates} {T : Int} {loc : ℚ × ℚ} {D : Int}
    (h : update_courier_after_assignment cid s T loc D = some s') (hne : c ≠ cid) :
    lookupState c s' = lookupState c s := by
  have hmem : cid ∈ s.map Prod.fst := by
    unfold update_courier_after_assignment at h
    split at h
    · assumption
    · cases h
  rw [update_mem_some hmem] at h
  injection h with h
  subst h
  unfold lookupState
  rw [List.find?_map, update_pred_comp]
  cases hfind : s.find? (fun e => e.1 == c) with
  | none => rfl
  | some e =>
    have he1 : e.1 = c := by simpa using List.find?_some hfind
    have : e.1 ≠ cid := he1 ▸ hne
    simp [this]

/-- The snapshot list returned by `get_available_couriers` is exactly the
filter of the store by the availability condition (and the emitted
locations are the stored ones). -/
theorem get_available_fst_eq (t : Int) (s : CourierStates) :
    (get_available_couriers t s).1 =
      (s.filter (fun e =>
        decide (e.2.status = Status.AVAILABLE ∨ e.2.becomes_available_at ≤ t))).map
        (fun e => ⟨e.1, e.2.lat, e.2.lng⟩) := by
  induction s with
  | nil => rfl
  | cons e rest ih =>
    by_cases hc : e.2.status = Status.AVAILABLE ∨ e.2.becomes_available_at ≤ t
    · simp [get_available_couriers, hc, ih]
    · simp [get_available_couriers, hc, ih]

/-- Membership of one courier id in an association list with nodup keys is
decided by `lookupState`. -/
theorem lookup_of_mem_nodup {s : CourierStates} (hnd : (s.map Prod.fst).Nodup)
    {e : Nat × CState} (he : e ∈ s) : lookupState e.1 s = some e.2 := by
  induction s with
  | nil => cases he
  | cons a rest ih =>
    rcases List.mem_cons.mp he with rfl | he'
    · simp [lookupState, List.find?]
    · have ha : a.1 ≠ e.1 := by
        intro h
        have : a.1 ∈ rest.map Prod.fst := h ▸ List.mem_map.mpr ⟨e, he', h.symm ▸ rfl⟩
        exact (List.nodup_cons.mp hnd).1 this
      have hb : (a.1 == e.1) = false := by simpa using ha
      have := ih (List.nodup_cons.mp hnd).2 he'
      simpa [lookupState, List.find?, hb] using this

theorem mem_of_lookup_some {s : CourierStates} {cid : Nat} {st : CState}
    (h : lookupState cid s = some st) : (cid, st) ∈ s := by
  unfold lookupState at h
  cases hf : s.find? (fun e => e.1 == cid) with
  | none => rw [hf] at h; cases h
  | some e =>
    rw [hf] at h
    have hmem := List.mem_of_find?_eq_some hf
    have hpred := List.find?_some hf
    have h1 : e.1 = cid := by simpa using hpred
    have h2 : e.2 = st := by simpa using h
    have : e = (cid, st) := by
      cases e; simp_all
    exact this ▸ hmem

/-- C5 — a courier transitioned to BUSY at time `T` with duration `D` by
`update_courier_after_assignment` appears in `get_available_couriers t`
exactly for `t ≥ T + D`, and no courier id is returned twice. -/
theorem courier_busy_roundtrip (s : CourierStates) (hnd : (s.map Prod.fst).Nodup)
    (cid : Nat) (T D : Int) (loc : ℚ × ℚ) (s' : CourierStates)
    (hup : update_courier_after_assignment cid s T loc D = some s') (t : Int) :
    (cid ∈ (get_available_couriers t s').1.map Snapshot.courier_id ↔ T + D ≤ t) ∧
      ((get_available_couriers t s').1.map Snapshot.courier_id).Nodup := by
  have hkeys : s'.map Prod.fst = s.map Prod.fst := update_keys_eq hup
  have hnd' : (s'.map Prod.fst).Nodup := hkeys ▸ hnd
  have hself : lookupState cid s' = some ⟨Status.BUSY, T + D, loc.1, loc.2⟩ :=
    update_lookup_self hup
  have hids : (get_available_couriers t s').1.map Snapshot.courier_id =
      (s'.filter (fun e =>
        decide (e.2.status = Status.AVAILABLE ∨ e.2.becomes_available_at ≤ t))).map Prod.fst := by
    rw [get_available_fst_eq]
    rw [List.map_map]
    rfl
  constructor
  · rw [hids]
    constructor
    · intro hmem
      rcases List.mem_map.mp hmem with ⟨e, hef, hfst⟩
      have hmem' : e ∈ s' := List.mem_of_mem_filter hef
      have hcond := List.of_mem_filter hef
      have hlk : lookupState e.1 s' = some e.2 := lookup_of_mem_nodup hnd' hmem'
      rw [hfst] at hlk
      rw [hself] at hlk
      have he2 : e.2 = ⟨Status.BUSY, T + D, loc.1, loc.2⟩ := by
        injection hlk with h; exact h.symm
      rw [he2] at hcond
      simp at hcond
      exact hcond
    · intro ht
      have hmem' : ((cid, (⟨Status.BUSY, T + D, loc.1, loc.2⟩ : CState))) ∈ s' :=
        mem_of_lookup_some hself
      refine List.mem_map.mpr ⟨(cid, ⟨Status.BUSY, T + D, loc.1, loc.2⟩), ?_, rfl⟩
      refine List.mem_filter.mpr ⟨hmem', ?_⟩
      simp [ht]
  · rw [hids]
    have hsub : List.Sublist ((s'.filter (fun e =>
        decide (e.2.status = Status.AVAILABLE ∨ e.2.becomes_available_at ≤ t))).map Prod.fst)
        (s'.map Prod.fst) := (List.filter_sublist s').map Prod.fst
    exact hsub.nodup hnd'

/-- Witness for C5 at a concrete store. -/
theorem courier_busy_roundtrip_witness :
    (7 ∈ (get_available_couriers 150
        [(7, ⟨Status.BUSY, 150, 1, 2⟩), (8, ⟨Status.AVAILABLE, 0, 3, 4⟩)]).1.map
        Snapshot.courier_id ↔ (100 : Int) + 50 ≤ 150) ∧
      ((get_available_couriers 150
        [(7, ⟨Status.BUSY, 150, 1, 2⟩), (8, ⟨Status.AVAILABLE, 0, 3, 4⟩)]).1.map
        Snapshot.courier_id).Nodup :=
  courier_busy_roundtrip
    [(7, ⟨Status.AVAILABLE, 0, 5, 5⟩), (8, ⟨Status.AVAILABLE, 0, 3, 4⟩)]
    (by decide) 7 100 50 (1, 2) _ (by decide) 150

/-- C9 — updating a courier id absent from the store fails (`KeyError`),
producing no modified store. -/
theorem update_unknown_courier_fails (s : CourierStates) (cid : Nat)
    (h : cid ∉ s.map Prod.fst) (T : Int) (loc : ℚ × ℚ) (D : Int) :
    update_courier_after_assignment cid s T loc D = none := by
  unfold update_courier_after_assignment
  simp [h]

/-- Witness for C9: courier 99 is not in a two-courier store. -/
theorem update_unknown_courier_fails_witness :
    update_courier_after_assignment 99
      [(7, ⟨Status.AVAILABLE, 0, 1, 1⟩), (8, ⟨Status.BUSY, 40, 2, 2⟩)] 10 (3, 3) 5 = none :=
  update_unknown_courier_fails
    [(7, ⟨Status.AVAILABLE, 0, 1, 1⟩), (8, ⟨Status.BUSY, 40, 2, 2⟩)] 99 (by decide) 10 (3, 3) 5

/-- C10 — updating a present courier id succeeds, keeps the key list
unchanged, and leaves the state of every other courier untouched. -/
theorem update_frame (s : CourierStates) (cid : Nat) (h : cid ∈ s.map Prod.fst)
    (T : Int) (loc : ℚ × ℚ) (D : Int) :
    ∃ s', update_courier_after_assignment cid s T loc D = some s' ∧
      s'.map Prod.fst = s.map Prod.fst ∧
      ∀ c, c ≠ cid → lookupState c s' = lookupState c s := by
  refine ⟨_, update_mem_some h, update_keys_eq (update_mem_some h), ?_⟩
  intro c hc
  exact update_lookup_other (update_mem_some h) hc

/-- Witness for C10 at a concrete store. -/
theorem update_frame_witness :
    ∃ s', update_courier_after_assignment 7
        [(7, ⟨Status.AVAILABLE, 0, 1, 1⟩), (8, ⟨Status.BUSY, 40, 2, 2⟩)] 10 (3, 3) 5 = some s' ∧
      s'.map Prod.fst =
        ([(7, (⟨Status.AVAILABLE, 0, 1, 1⟩ : CState)), (8, ⟨Status.BUSY, 40, 2, 2⟩)]).map Prod.fst ∧
      ∀ c, c ≠ 7 → lookupState c s' =
        lookupState c [(7, ⟨Status.AVAILABLE, 0, 1, 1⟩), (8, ⟨Status.BUSY, 40, 2, 2⟩)] :=
  update_frame [(7, ⟨Status.AVAILABLE, 0, 1, 1⟩), (8, ⟨Status.BUSY, 40, 2, 2⟩)] 7
    (by decide) 10 (3, 3) 5

/-! Data model of the simulation driver and the strategies. -/

/-- One row of the per-moment waiting-order table (`dispatch_waybill`);
the simulator core reads only its `order_id`. -/
structure Order where
  order_id : Nat
deriving DecidableEq, Repr

/-- One row of the courier snapshot handed to a strategy
(`get_available_couriers` output, plus the historical snapshot columns). -/
structure Courier where
  courier_id : Nat
  rider_lat : ℚ
  rider_lng : ℚ
deriving DecidableEq, Repr

/-- One entry of the `waybill_lookup` dict built in
`run_simulation.run_simulation` (lines 66–75). -/
structure OrderLoc where
  sender_lat : ℚ
  sender_lng : ℚ
  recipient_lat : ℚ
  recipient_lng : ℚ
  actual_courier_id : Nat
deriving DecidableEq, Repr

/-- The `waybill_lookup` dict as a map of order ids into `Option`. -/
abbrev Lookup := Nat → Option OrderLoc

/-- An `(order, courier, cost)` triple returned by a strategy. -/
abbrev Asg := Order × Courier × ℚ

/-- Phase D of one dispatch cycle (`run_simulation.py` lines 150–177): walk
the proposed assignments in order; the k-th proposal draws `rand k` from the
global RNG and is rejected when `rand k < rejection_probability`, otherwise
it is accepted and its courier is moved to the order's delivery point, BUSY
until `dispatch_time + task_duration`.  Returns
(accepted list, rejected list, updated courier store); a `KeyError` on the
waybill lookup or on the courier dict is modelled as `none`. -/
def processProposed (rejection_probability : ℚ) (rand : Nat → ℚ) (lookup : Lookup)
    (dispatch_time task_duration : Int) :
    List Asg → Nat → CourierStates → Option (List Asg × List Asg × CourierStates)
  | [], _, s => some ([], [], s)
  | a :: rest, k, s =>
    if rand k < rejection_probability then
      (processProposed rejection_probability rand lookup dispatch_time task_duration
        rest (k + 1) s).map (fun r => (r.1, a :: r.2.1, r.2.2))
    else
      match lookup a.1.order_id with
      | none => none
      | some loc =>
        match update_courier_after_assignment a.2.1.courier_id s dispatch_time
            (loc.recipient_lat, loc.recipient_lng) task_duration with
        | none => none
        | some s' =>
          (processProposed rejection_probability rand lookup dispatch_time task_duration
            rest (k + 1) s').map (fun r => (a :: r.1, r.2.1, r.2.2))

theorem processProposed_reject_all (rand : Nat → ℚ) (lookup : Lookup) (T D : Int)
    (proposed : List Asg) (k : Nat) (s : CourierStates) (hr : ∀ i, rand i < 1) :
    processProposed 1 rand lookup T D proposed k s = some ([], proposed, s) := by
  induction proposed generalizing k with
  | nil => rfl
  | cons a rest ih =>
    simp [processProposed, if_pos (hr k), ih (k + 1)]

theorem processProposed_accept_all (rand : Nat → ℚ) (lookup : Lookup) (T D : Int)
    (proposed : List Asg) (k : Nat) (s : CourierStates)
    (hr : ∀ i, 0 ≤ rand i)
    (hlk : ∀ a ∈ proposed, (lookup a.1.order_id).isSome = true)
    (hcs : ∀ a ∈ proposed, a.2.1.courier_id ∈ s.map Prod.fst) :
    ∃ s', processProposed 0 rand lookup T D proposed k s = some (proposed, [], s') ∧
      s'.map Prod.fst = s.map Prod.fst ∧
      (∀ c st, lookupState c s = some st → st.status = Status.BUSY →
        st.becomes_available_at = T + D →
        ∃ st', lookupState c s' = some st' ∧ st'.status = Status.BUSY ∧
          st'.becomes_available_at = T + D) ∧
      ∀ a ∈ proposed, ∃ st', lookupState a.2.1.courier_id s' = some st' ∧
        st'.status = Status.BUSY ∧ st'.becomes_available_at = T + D := by
  induction proposed generalizing k s with
  | nil =>
    exact ⟨s, rfl, rfl, fun c st h hb hba => ⟨st, h, hb, hba⟩, by simp⟩
  | cons a rest ih =>
    have hnotlt : ¬ rand k < 0 := not_lt.mpr (hr k)
    obtain ⟨loc, hloc⟩ : ∃ loc, lookup a.1.order_id = some loc :=
      Option.isSome_iff_exists.mp (hlk a (List.mem_cons_self a rest))
    have hmem : a.2.1.courier_id ∈ s.map Prod.fst := hcs a (List.mem_cons_self a rest)
    have hup := @update_mem_some a.2.1.courier_id s T
      (loc.recipient_lat, loc.recipient_lng) D hmem
    set s₁ := s.map (fun e =>
      if e.1 = a.2.1.courier_id then
        (e.1, (⟨Status.BUSY, T + D, loc.recipient_lat, loc.recipient_lng⟩ : CState))
      else e) with hs₁
    have hkeys₁ : s₁.map Prod.fst = s.map Prod.fst := update_keys_eq hup
    obtain ⟨s', hproc, hkeys', hpres, hrest⟩ := ih (k + 1) s₁
      (fun b hb => hlk b (List.mem_cons_of_mem a hb))
      (fun b hb => hkeys₁ ▸ hcs b (List.mem_cons_of_mem a hb))
    have hpres₀ : ∀ c st, lookupState c s = some st → st.status = Status.BUSY →
        st.becomes_available_at = T + D →
        ∃ st', lookupState c s' = some st' ∧ st'.status = Status.BUSY ∧
          st'.becomes_available_at = T + D := by
      intro c st h hb hba
      by_cases hc : c = a.2.1.courier_id
      · subst hc
        exact hpres _ _ (update_lookup_self hup) rfl rfl
      · exact hpres c st ((update_lookup_other hup hc) ▸ h) hb hba
    refine ⟨s', ?_, hkeys' ▸ hkeys₁, hpres₀, ?_⟩
    · simp only [processProposed, if_neg hnotlt, hloc, hup, hproc]
      rfl
    · intro b hb
      rcases List.mem_cons.mp hb with rfl | hb'
      · exact hpres b.2.1.courier_id _ (update_lookup_self hup) rfl rfl
      · exact hrest b hb'

/-- C6 — in one dispatch cycle's acceptance phase: with rejection
probability `1.0` nothing is accepted and the courier store is returned
unchanged, whatever was proposed; with rejection probability `0.0` the
accepted list is exactly the proposed list and every accepted courier ends
BUSY with `becomes_available_at = dispatch_time + task_duration`.
(`random.random()` draws satisfy `0 ≤ rand i < 1`.) -/
theorem rejection_probability_extremes (proposed : List Asg) (rand : Nat → ℚ)
    (lookup : Lookup) (T D : Int) (s : CourierStates) :
    ((∀ i, rand i < 1) →
      processProposed 1 rand lookup T D proposed 0 s = some ([], proposed, s)) ∧
    ((∀ i, 0 ≤ rand i) →
     (∀ a ∈ proposed, (lookup a.1.order_id).isSome = true) →
     (∀ a ∈ proposed, a.2.1.courier_id ∈ s.map Prod.fst) →
      ∃ s', processProposed 0 rand lookup T D proposed 0 s = some (proposed, [], s') ∧
        ∀ a ∈ proposed, ∃ st, lookupState a.2.1.courier_id s' = some st ∧
          st.status = Status.BUSY ∧ st.becomes_available_at = T + D) := by
  constructor
  · intro hr
    exact processProposed_reject_all rand lookup T D proposed 0 s hr
  · intro hr hlk hcs
    obtain ⟨s', hproc, _, _, hall⟩ :=
      processProposed_accept_all rand lookup T D proposed 0 s hr hlk hcs
    exact ⟨s', hproc, hall⟩

/-- Witness for C6 on a one-proposal cycle. -/
theorem rejection_probability_extremes_witness :
    ((∀ i : Nat, (fun _ : Nat => (1 : ℚ) / 2) i < 1) →
      processProposed 1 (fun _ => (1 : ℚ) / 2)
        (fun n => if n = 1 then some ⟨0, 0, 4, 4, 7⟩ else none) 10 5
        [(⟨1⟩, ⟨7, 0, 0⟩, 2)] 0 [(7, ⟨Status.AVAILABLE, 0, 0, 0⟩)] =
        some ([], [(⟨1⟩, ⟨7, 0, 0⟩, 2)], [(7, ⟨Status.AVAILABLE, 0, 0, 0⟩)])) ∧
    ((∀ i : Nat, (0 : ℚ) ≤ (fun _ : Nat => (1 : ℚ) / 2) i) →
     (∀ a ∈ [((⟨1⟩ : Order), (⟨7, 0, 0⟩ : Courier), (2 : ℚ))],
        ((fun n => if n = 1 then some (⟨0, 0, 4, 4, 7⟩ : OrderLoc) else none)
          a.1.order_id).isSome = true) →
     (∀ a ∈ [((⟨1⟩ : Order), (⟨7, 0, 0⟩ : Courier), (2 : ℚ))],
        a.2.1.courier_id ∈
          ([(7, (⟨Status.AVAILABLE, 0, 0, 0⟩ : CState))] : CourierStates).map Prod.fst) →
      ∃ s', processProposed 0 (fun _ => (1 : ℚ) / 2)
          (fun n => if n = 1 then some ⟨0, 0, 4, 4, 7⟩ else none) 10 5
          [(⟨1⟩, ⟨7, 0, 0⟩, 2)] 0 [(7, ⟨Status.AVAILABLE, 0, 0, 0⟩)] =
          some ([(⟨1⟩, ⟨7, 0, 0⟩, 2)], [], s') ∧
        ∀ a ∈ [((⟨1⟩ : Order), (⟨7, 0, 0⟩ : Courier), (2 : ℚ))],
          ∃ st, lookupState a.2.1.courier_id s' = some st ∧
            st.status = Status.BUSY ∧ st.becomes_available_at = 10 + 5) :=
  rejection_probability_extremes [(⟨1⟩, ⟨7, 0, 0⟩, 2)] (fun _ => (1 : ℚ) / 2)
    (fun n => if n = 1 then some ⟨0, 0, 4, 4, 7⟩ else none) 10 5
    [(7, ⟨Status.AVAILABLE, 0, 0, 0⟩)]

/-! The assignment log of phase E. -/

/-- One row of the assignment log (`logger.log_assignment` call site,
`run_simulation.py` lines 224–228). -/
structure LogRecord where
  dispatch_time : Int
  order_id : Nat
  proposed_courier_id : Option Nat
  cost : Option ℚ
  is_assigned : Bool
  was_accepted : Bool
  actual_courier_id : Nat
  is_match : Bool
  n_orders : Nat
  n_couriers : Nat
  pickup_lat : ℚ
  pickup_lng : ℚ
deriving DecidableEq, Repr

/-- Phase E of one dispatch cycle (`run_simulation.py` lines 184–228): one
assignment-log record per waiting order, except that an order whose id is
absent from `waybill_lookup` is skipped by the `continue` on line 194. -/
def assignmentLogRecords (dispatch_time : Int) (waiting_orders : List Order)
    (proposed accepted : List Asg) (lookup : Lookup) (n_orders n_couriers : Nat) :
    List LogRecord :=
  waiting_orders.filterMap (fun order =>
    match lookup order.order_id with
    | none => none
    | some loc =>
      let assigned_ids := accepted.map (fun a => a.1.order_id)
      match proposed.find? (fun a => a.1.order_id == order.order_id) with
      | none =>
        some ⟨dispatch_time, order.order_id, none, none, false, false,
              loc.actual_courier_id, false, n_orders, n_couriers,
              loc.sender_lat, loc.sender_lng⟩
      | some a =>
        let was_accepted := assigned_ids.contains order.order_id
        some ⟨dispatch_time, order.order_id, some a.2.1.courier_id, some a.2.2,
              true, was_accepted,
              loc.actual_courier_id,
              was_accepted && (a.2.1.courier_id == loc.actual_courier_id),
              n_orders, n_couriers, loc.sender_lat, loc.sender_lng⟩)

/-- C1 (amended) — the assignment log of a dispatch moment has exactly one
row per waiting order that is present in the waybill lookup, in batch
order; orders absent from the lookup produce no row. -/
theorem assignment_log_one_row_per_present_order (dispatch_time : Int)
    (waiting_orders : List Order) (proposed accepted : List Asg) (lookup : Lookup)
    (n_orders n_couriers : Nat) :
    (assignmentLogRecords dispatch_time waiting_orders proposed accepted lookup
        n_orders n_couriers).map LogRecord.order_id =
      (waiting_orders.filter (fun o => (lookup o.order_id).isSome)).map Order.order_id := by
  induction waiting_orders with
  | nil => rfl
  | cons o rest ih =>
    cases hlo : lookup o.order_id with
    | none => simpa [assignmentLogRecords, hlo] using ih
    | some loc =>
      cases hf : proposed.find? (fun a => a.1.order_id == o.order_id) with
      | none => simpa [assignmentLogRecords, hlo, hf] using ih
      | some a => simpa [assignmentLogRecords, hlo, hf] using ih

/-! Model of `scipy.optimize.linear_sum_assignment`. -/

/-- All ordered selections of `k` distinct elements of `avail`. -/
def injections : Nat → List Nat → List (List Nat)
  | 0, _ => [[]]
  | k + 1, avail =>
    avail.flatMap (fun c => (injections k (avail.erase c)).map (fun rest => c :: rest))

theorem injections_sound {k : Nat} {avail : List Nat} {q : List Nat}
    (hq : q ∈ injections k avail) (hnd : avail.Nodup) :
    q.length = k ∧ q.Nodup ∧ q ⊆ avail := by
  induction k generalizing avail q with
  | zero =>
    simp only [injections, List.mem_singleton] at hq
    subst hq
    exact ⟨rfl, List.nodup_nil, List.nil_subset avail⟩
  | succ k ih =>
    simp only [injections, List.mem_flatMap, List.mem_map] at hq
    obtain ⟨c, hc, rest, hrest, rfl⟩ := hq
    obtain ⟨hlen, hndr, hsub⟩ := ih hrest (hnd.erase c)
    refine ⟨by simp [hlen], ?_, ?_⟩
    · refine List.nodup_cons.mpr ⟨?_, hndr⟩
      intro hcr
      have := hsub hcr
      rw [hnd.mem_erase_iff] at this
      exact this.1 rfl
    · intro x hx
      rcases List.mem_cons.mp hx with rfl | hx'
      · exact hc
      · exact List.mem_of_mem_erase (hsub hx')

theorem injections_complete : ∀ (cols avail : List Nat), cols.Nodup → cols ⊆ avail →
    cols ∈ injections cols.length avail
  | [], avail, _, _ => by
    show [] ∈ injections 0 avail
    exact List.Mem.head _
  | c :: rest, avail, hnd, hsub => by
    have hc : c ∈ avail := hsub (List.mem_cons_self c rest)
    have hrest : rest ⊆ avail.erase c := by
      intro x hx
      have hne : x ≠ c := by
        intro h
        exact (List.nodup_cons.mp hnd).1 (h ▸ hx)
      exact (List.mem_erase_of_ne hne).mpr (hsub (List.mem_cons_of_mem c hx))
    have := injections_complete rest (avail.erase c) (List.nodup_cons.mp hnd).2 hrest
    simp only [List.length_cons, injections, List.mem_flatMap, List.mem_map]
    exact ⟨c, hc, rest, this, rfl⟩

theorem injections_ne_nil : ∀ (k : Nat) (avail : List Nat), k ≤ avail.length →
    injections k avail ≠ []
  | 0, _, _ => by simp [injections]
  | k + 1, [], h => by simp at h
  | k + 1, a :: t, h => by
    have ht : k ≤ t.length := by simp at h; omega
    have := injections_ne_nil k t ht
    simp only [injections, List.flatMap_cons, List.erase_cons_head]
    intro habs
    rcases List.append_eq_nil.mp habs with ⟨h1, _⟩
    exact this (List.map_eq_nil_iff.mp h1)

/-- All maximum-cardinality one-to-one pairings of rows `0..n-1` with
columns `0..m-1`, as `(row, column)` lists. -/
def allPairLists (n m : Nat) : List (List (Nat × Nat)) :=
  if n ≤ m then
    (injections n (List.range m)).map (fun cols => (List.range n).zip cols)
  else
    (injections m (List.range n)).map (fun rows => rows.zip (List.range m))

/-- Total cost of a pairing under a cost matrix. -/
def totalCost (C : Nat → Nat → ℚ) (p : List (Nat × Nat)) : ℚ :=
  (p.map (fun rc => C rc.1 rc.2)).sum

theorem allPairLists_sound {n m : Nat} {q : List (Nat × Nat)} (hq : q ∈ allPairLists n m) :
    q.length = min n m ∧ (q.map Prod.fst).Nodup ∧ (q.map Prod.snd).Nodup ∧
      ∀ rc ∈ q, rc.1 < n ∧ rc.2 < m := by
  unfold allPairLists at hq
  by_cases hnm : n ≤ m
  · rw [if_pos hnm] at hq
    obtain ⟨cols, hcols, rfl⟩ := List.mem_map.mp hq
    obtain ⟨hlen, hnd, hsub⟩ := injections_sound hcols (List.nodup_range m)
    have hlr : (List.range n).length = cols.length := by simp [hlen]
    refine ⟨?_, ?_, ?_, ?_⟩
    · simp [List.length_zip, hlen, Nat.min_self, min_eq_left hnm]
    · rw [List.map_fst_zip _ _ (le_of_eq hlr)]
      exact List.nodup_range n
    · rw [List.map_snd_zip _ _ (ge_of_eq hlr)]
      exact hnd
    · intro rc hrc
      have := List.of_mem_zip (a := rc.1) (b := rc.2) (by simpa using hrc)
      exact ⟨List.mem_range.mp this.1, List.mem_range.mp (hsub this.2)⟩
  · rw [if_neg hnm] at hq
    obtain ⟨rows, hrows, rfl⟩ := List.mem_map.mp hq
    obtain ⟨hlen, hnd, hsub⟩ := injections_sound hrows (List.nodup_range n)
    have hlr : rows.length = (List.range m).length := by simp [hlen]
    have hmn : m ≤ n := le_of_not_le hnm
    refine ⟨?_, ?_, ?_, ?_⟩
    · simp [List.length_zip, hlen, min_eq_right hmn]
    · rw [List.map_fst_zip _ _ (le_of_eq hlr)]
      exact hnd
    · rw [List.map_snd_zip _ _ (ge_of_eq hlr)]
      exact List.nodup_range m
    · intro rc hrc
      have := List.of_mem_zip (a := rc.1) (b := rc.2) (by simpa using hrc)
      exact ⟨List.mem_range.mp (hsub this.1), List.mem_range.mp this.2⟩

theorem allPairLists_ne_nil (n m : Nat) : allPairLists n m ≠ [] := by
  unfold allPairLists
  by_cases hnm : n ≤ m
  · rw [if_pos hnm]
    intro h
    exact injections_ne_nil n (List.range m) (by simpa using hnm) (List.map_eq_nil_iff.mp h)
  · rw [if_neg hnm]
    intro h
    exact injections_ne_nil m (List.range n) (by simp [le_of_lt (lt_of_not_le hnm)])
      (List.map_eq_nil_iff.mp h)

theorem foldlMin_mem {α : Type} (f : α → ℚ) (l : List α) (b : α) :
    l.foldl (fun best x => if f x < f best then x else best) b ∈ b :: l := by
  induction l generalizing b with
  | nil => simp
  | cons c t ih =>
    simp only [List.foldl_cons]
    have hm := ih (if f c < f b then c else b)
    rcases List.mem_cons.mp hm with h | h
    · rw [h]
      by_cases hcb : f c < f b
      · rw [if_pos hcb]
        exact List.mem_cons_of_mem b (List.mem_cons_self c t)
      · rw [if_neg hcb]
        exact List.mem_cons_self b (c :: t)
    · exact List.mem_cons_of_mem b (List.mem_cons_of_mem c h)

theorem foldlMin_le {α : Type} (f : α → ℚ) (l : List α) (b : α) :
    ∀ x ∈ b :: l, f (l.foldl (fun best x => if f x < f best then x else best) b) ≤ f x := by
  induction l generalizing b with
  | nil =>
    intro x hx
    rcases List.mem_cons.mp hx with rfl | hx'
    · exact le_refl _
    · cases hx'
  | cons c t ih =>
    intro x hx
    simp only [List.foldl_cons]
    have hhead : f (t.foldl (fun best x => if f x < f best then x else best)
        (if f c < f b then c else b)) ≤ f (if f c < f b then c else b) :=
      ih (if f c < f b then c else b) _ (List.mem_cons_self _ t)
    rcases List.mem_cons.mp hx with rfl | hx'
    · refine le_trans hhead ?_
      by_cases hcb : f c < f x
      · rw [if_pos hcb]; exact le_of_lt hcb
      · rw [if_neg hcb]
    · rcases List.mem_cons.mp hx' with rfl | hx''
      · refine le_trans hhead ?_
        by_cases hcb : f x < f b
        · rw [if_pos hcb]
        · rw [if_neg hcb]; exact le_of_not_lt hcb
      · exact ih (if f c < f b then c else b) x (List.mem_cons_of_mem _ hx'')

/-- Model of `scipy.optimize.linear_sum_assignment` by its documented
contract: among all maximum-cardinality pairings it returns one of globally
minimal total cost (executable exhaustive-search reference implementation;
the library's tie-break among optima is unspecified and nothing proved here
depends on it). -/
def linear_sum_assignment (C : Nat → Nat → ℚ) (n m : Nat) : List (Nat × Nat) :=
  match allPairLists n m with
  | [] => []
  | q :: qs =>
    qs.foldl (fun best x => if totalCost C x < totalCost C best then x else best) q

theorem linear_sum_assignment_mem (C : Nat → Nat → ℚ) (n m : Nat) :
    linear_sum_assignment C n m ∈ allPairLists n m := by
  unfold linear_sum_assignment
  cases hall : allPairLists n m with
  | nil => exact absurd hall (allPairLists_ne_nil n m)
  | cons q qs => exact foldlMin_mem (totalCost C) qs q

theorem linear_sum_assignment_opt (C : Nat → Nat → ℚ) (n m : Nat) :
    ∀ q ∈ allPairLists n m,
      totalCost C (linear_sum_assignment C n m) ≤ totalCost C q := by
  unfold linear_sum_assignment
  cases hall : allPairLists n m with
  | nil => intro q hq; simp at hq
  | cons q qs => exact foldlMin_le (totalCost C) qs q

/-- A valid maximum-cardinality one-to-one pairing of `n` rows (orders)
with `m` columns (couriers): `min n m` pairs, no row or column repeated,
indices in range.  This is the claim's "other valid one-to-one pairing of
the same order and courier sets of the same cardinality". -/
def isMatching (n m : Nat) (p : List (Nat × Nat)) : Prop :=
  p.length = min n m ∧ (p.map Prod.fst).Nodup ∧ (p.map Prod.snd).Nodup ∧
    ∀ rc ∈ p, rc.1 < n ∧ rc.2 < m

instance (n m : Nat) (p : List (Nat × Nat)) : Decidable (isMatching n m p) := by
  unfold isMatching
  infer_instance

/-- The column matched to row `i` in the pairing `p`. -/
def colOf (p : List (Nat × Nat)) (i : Nat) : Nat :=
  ((p.find? (fun rc => rc.1 == i)).map Prod.snd).getD 0

theorem find?_key_self {p : List (Nat × Nat)} (hf : (p.map Prod.fst).Nodup)
    {rc : Nat × Nat} (hrc : rc ∈ p) : p.find? (fun x => x.1 == rc.1) = some rc := by
  induction p with
  | nil => cases hrc
  | cons a t ih =>
    rcases List.mem_cons.mp hrc with rfl | hrc'
    · exact List.find?_cons_of_pos t (by simp)
    · have hne : a.1 ≠ rc.1 := by
        intro h
        exact (List.nodup_cons.mp hf).1 (h ▸ List.mem_map.mpr ⟨rc, hrc', rfl⟩)
      rw [List.find?_cons_of_neg t (by simpa using hne)]
      exact ih (List.nodup_cons.mp hf).2 hrc'

theorem zip_self_map {α β : Type} (f : α → β) :
    ∀ l : List α, l.zip (l.map f) = l.map (fun a => (a, f a))
  | [] => rfl
  | a :: t => by simp [zip_self_map f t]

theorem matching_canon_le {n m : Nat} (hnm : n ≤ m) {p : List (Nat × Nat)}
    (hp : isMatching n m p) :
    ∃ cols ∈ injections n (List.range m), List.Perm ((List.range n).zip cols) p := by
  obtain ⟨hlen, hf, hs, hb⟩ := hp
  have hlen' : p.length = n := by rw [hlen]; exact min_eq_left hnm
  have hsubpq : p ⊆ (List.range n).map (fun i => (i, colOf p i)) := by
    intro rc hrc
    have h1 : rc.1 < n := (hb rc hrc).1
    have hfind := find?_key_self hf hrc
    have hrc' : rc = (rc.1, colOf p rc.1) := by
      have : colOf p rc.1 = rc.2 := by simp [colOf, hfind]
      rw [this]
    rw [hrc']
    exact List.mem_map.mpr ⟨rc.1, List.mem_range.mpr h1, rfl⟩
  have hqfst : ((List.range n).map (fun i => (i, colOf p i))).map Prod.fst = List.range n := by
    simp [List.map_map, Function.comp_def]
  have hqnodup : ((List.range n).map (fun i => (i, colOf p i))).Nodup :=
    List.Nodup.of_map Prod.fst (by rw [hqfst]; exact List.nodup_range n)
  have hpnodup : p.Nodup := List.Nodup.of_map Prod.fst hf
  have hqlen : ((List.range n).map (fun i => (i, colOf p i))).length = n := by simp
  have hperm : List.Perm p ((List.range n).map (fun i => (i, colOf p i))) :=
    (hpnodup.subperm hsubpq).perm_of_length_le (by rw [hqlen, hlen'])
  have hqsnd : ((List.range n).map (fun i => (i, colOf p i))).map Prod.snd =
      (List.range n).map (colOf p) := by
    simp [List.map_map, Function.comp_def]
  have hcolsnodup : ((List.range n).map (colOf p)).Nodup := by
    rw [← hqsnd]
    exact ((hperm.map Prod.snd).nodup_iff).mp hs
  have hcolssub : (List.range n).map (colOf p) ⊆ List.range m := by
    intro x hx
    rw [← hqsnd] at hx
    have hx' : x ∈ p.map Prod.snd := ((hperm.map Prod.snd).mem_iff).mpr hx
    obtain ⟨rc, hrc, rfl⟩ := List.mem_map.mp hx'
    exact List.mem_range.mpr (hb rc hrc).2
  have hcolslen : ((List.range n).map (colOf p)).length = n := by simp
  have hmem : (List.range n).map (colOf p) ∈ injections n (List.range m) := by
    have := injections_complete ((List.range n).map (colOf p)) (List.range m)
      hcolsnodup hcolssub
    rwa [hcolslen] at this
  refine ⟨(List.range n).map (colOf p), hmem, ?_⟩
  rw [zip_self_map]
  exact hperm.symm

theorem matching_complete {n m : Nat} {p : List (Nat × Nat)} (hp : isMatching n m p) :
    ∃ q ∈ allPairLists n m, List.Perm q p := by
  by_cases hnm : n ≤ m
  · obtain ⟨cols, hcols, hperm⟩ := matching_canon_le hnm hp
    refine ⟨(List.range n).zip cols, ?_, hperm⟩
    unfold allPairLists
    rw [if_pos hnm]
    exact List.mem_map.mpr ⟨cols, hcols, rfl⟩
  · have hmn : m ≤ n := le_of_not_le hnm
    obtain ⟨hlen, hf, hs, hb⟩ := hp
    have hp' : isMatching m n (p.map Prod.swap) := by
      refine ⟨by simp [hlen, min_comm], ?_, ?_, ?_⟩
      · have : (p.map Prod.swap).map Prod.fst = p.map Prod.snd := by
          simp [List.map_map, Function.comp_def]
        rw [this]; exact hs
      · have : (p.map Prod.swap).map Prod.snd = p.map Prod.fst := by
          simp [List.map_map, Function.comp_def]
        rw [this]; exact hf
      · intro rc hrc
        obtain ⟨rc₀, hrc₀, rfl⟩ := List.mem_map.mp hrc
        exact ⟨(hb rc₀ hrc₀).2, (hb rc₀ hrc₀).1⟩
    obtain ⟨cols, hcols, hperm⟩ := matching_canon_le hmn hp'
    refine ⟨cols.zip (List.range m), ?_, ?_⟩
    · unfold allPairLists
      rw [if_neg hnm]
      exact List.mem_map.mpr ⟨cols, hcols, rfl⟩
    · have hswap : ((List.range m).zip cols).map Prod.swap = cols.zip (List.range m) :=
        List.zip_swap (List.range m) cols
      have := hperm.map Prod.swap
      rw [hswap] at this
      have hps : (p.map Prod.swap).map Prod.swap = p := by
        simp [List.map_map]
      rwa [hps] at this

theorem perm_totalCost {C : Nat → Nat → ℚ} {p q : List (Nat × Nat)}
    (h : List.Perm q p) : totalCost C q = totalCost C p := by
  unfold totalCost
  exact (h.map (fun rc => C rc.1 rc.2)).sum_eq

/-! Tier 1: optimal bipartite matching (`Tier1Baseline`). -/

/-- The `1e9` sentinel cost (`assignment_strategy.py` lines 79 and 106). -/
def sentinel : ℚ := 1000000000

/-- A pluggable cost function (`models/cost/base.py`): scores one
courier–order pair given the order's lookup entry; the contract demands a
finite non-negative score.  Kept abstract because the canonical
`DistanceToPickup` takes a real square root (irrational in general); every
theorem below holds for an arbitrary cost function. -/
abbrev CostFn := Courier → Order → OrderLoc → ℚ

/-- The cost matrix built by `Tier1Baseline.make_assignments`
(lines 70–93): the whole row of an order missing from the lookup is the
sentinel; otherwise entry `(i, j)` is the configured cost of pairing order
`i` with courier `j`.  Out-of-range indices (never touched by the solver)
default to `0`. -/
def costMatrix (costFn : CostFn) (waiting_orders : List Order)
    (available_couriers : List Courier) (lookup : Lookup) (i j : Nat) : ℚ :=
  match waiting_orders[i]? with
  | none => 0
  | some o =>
    match lookup o.order_id with
    | none => sentinel
    | some loc =>
      match available_couriers[j]? with
      | none => 0
      | some c => costFn c o loc

/-- Body of the result loop of `Tier1Baseline.make_assignments`
(lines 99–113): a matched pair whose cost reached the sentinel is skipped,
any other pair is emitted with its matrix cost. -/
def tier1_keep (costFn : CostFn) (waiting_orders : List Order)
    (available_couriers : List Courier) (lookup : Lookup) (rc : Nat × Nat) : Option Asg :=
  if sentinel ≤ costMatrix costFn waiting_orders available_couriers lookup rc.1 rc.2 then
    none
  else
    match waiting_orders[rc.1]?, available_couriers[rc.2]? with
    | some o, some c =>
      some (o, c, costMatrix costFn waiting_orders available_couriers lookup rc.1 rc.2)
    | _, _ => none

/-- Embedding of `Tier1Baseline.make_assignments` (lines 58–115): build the
cost matrix, solve the assignment problem, and keep every matched pair
whose cost is below the sentinel. -/
def Tier1Baseline.make_assignments (costFn : CostFn) (waiting_orders : List Order)
    (available_couriers : List Courier) (lookup : Lookup) : List Asg :=
  if waiting_orders = [] ∨ available_couriers = [] then []
  else
    (linear_sum_assignment (costMatrix costFn waiting_orders available_couriers lookup)
      waiting_orders.length available_couriers.length).filterMap
      (tier1_keep costFn waiting_orders available_couriers lookup)

/-- Total cost of an assignment list (sum of the cost components). -/
def asgTotal (l : List Asg) : ℚ := (l.map (fun t => t.2.2)).sum

theorem sentinel_nonneg : (0 : ℚ) ≤ sentinel := by norm_num [sentinel]

theorem costMatrix_nonneg {costFn : CostFn} (hnn : ∀ c o loc, 0 ≤ costFn c o loc)
    (waiting_orders : List Order) (available_couriers : List Courier) (lookup : Lookup)
    (i j : Nat) : 0 ≤ costMatrix costFn waiting_orders available_couriers lookup i j := by
  rcases h1 : waiting_orders[i]? with _ | o
  · simp [costMatrix, h1]
  · rcases h2 : lookup o.order_id with _ | loc
    · simpa [costMatrix, h1, h2] using sentinel_nonneg
    · rcases h3 : available_couriers[j]? with _ | c
      · simp [costMatrix, h1, h2, h3]
      · simpa [costMatrix, h1, h2, h3] using hnn c o loc

theorem tier1_keep_some {costFn : CostFn} {waiting_orders : List Order}
    {available_couriers : List Courier} {lookup : Lookup} {rc : Nat × Nat} {t : Asg}
    (h : tier1_keep costFn waiting_orders available_couriers lookup rc = some t) :
    ¬ sentinel ≤ costMatrix costFn waiting_orders available_couriers lookup rc.1 rc.2 ∧
      waiting_orders[rc.1]? = some t.1 ∧ available_couriers[rc.2]? = some t.2.1 ∧
      t.2.2 = costMatrix costFn waiting_orders available_couriers lookup rc.1 rc.2 := by
  unfold tier1_keep at h
  split at h
  · cases h
  · rename_i hguard
    cases ho : waiting_orders[rc.1]? with
    | none => rw [ho] at h; simp at h
    | some o =>
      cases hc : available_couriers[rc.2]? with
      | none => rw [ho, hc] at h; simp at h
      | some c =>
        rw [ho, hc] at h
        injection h with h
        subst h
        exact ⟨hguard, rfl, rfl, rfl⟩

theorem asgTotal_filterMap_le {costFn : CostFn} {waiting_orders : List Order}
    {available_couriers : List Courier} {lookup : Lookup}
    (hnn : ∀ c o loc, 0 ≤ costFn c o loc) :
    ∀ pairs : List (Nat × Nat),
      asgTotal (pairs.filterMap (tier1_keep costFn waiting_orders available_couriers lookup)) ≤
        totalCost (costMatrix costFn waiting_orders available_couriers lookup) pairs := by
  intro pairs
  induction pairs with
  | nil => simp [asgTotal, totalCost]
  | cons rc rest ih =>
    rw [List.filterMap_cons]
    cases hk : tier1_keep costFn waiting_orders available_couriers lookup rc with
    | none =>
      have h0 : 0 ≤ costMatrix costFn waiting_orders available_couriers lookup rc.1 rc.2 :=
        costMatrix_nonneg hnn _ _ _ _ _
      calc asgTotal (rest.filterMap (tier1_keep costFn waiting_orders available_couriers lookup))
          ≤ totalCost (costMatrix costFn waiting_orders available_couriers lookup) rest := ih
        _ ≤ totalCost (costMatrix costFn waiting_orders available_couriers lookup) (rc :: rest) := by
            simp only [totalCost, List.map_cons, List.sum_cons]
            linarith
    | some t =>
      have hts := tier1_keep_some hk
      simp only [asgTotal, totalCost, List.map_cons, List.sum_cons]
      have ih' : asgTotal
          (rest.filterMap (tier1_keep costFn waiting_orders available_couriers lookup)) ≤
          totalCost (costMatrix costFn waiting_orders available_couriers lookup) rest := ih
      simp only [asgTotal, totalCost] at ih'
      rw [hts.2.2.2]
      linarith

/-- C2 — on a batch whose orders are all present in the lookup, the total
cost of the `Tier1Baseline` (OptimalBipartite) assignment list is at most
the total cost of every other one-to-one pairing of the same order and
courier index sets of cardinality `min(|orders|, |couriers|)`; moreover,
at every pair of such a pairing the cost matrix is exactly the configured
cost function, so the comparison is under the configured cost function. -/
theorem tier1_globally_optimal (costFn : CostFn) (waiting_orders : List Order)
    (available_couriers : List Courier) (lookup : Lookup)
    (hpres : ∀ o ∈ waiting_orders, (lookup o.order_id).isSome = true)
    (hnn : ∀ c o loc, 0 ≤ costFn c o loc)
    (p : List (Nat × Nat))
    (hp : isMatching waiting_orders.length available_couriers.length p) :
    asgTotal (Tier1Baseline.make_assignments costFn waiting_orders available_couriers lookup) ≤
      totalCost (costMatrix costFn waiting_orders available_couriers lookup) p ∧
    ∀ rc ∈ p, ∃ o c loc, waiting_orders[rc.1]? = some o ∧
      available_couriers[rc.2]? = some c ∧ lookup o.order_id = some loc ∧
      costMatrix costFn waiting_orders available_couriers lookup rc.1 rc.2 = costFn c o loc := by
  constructor
  · unfold Tier1Baseline.make_assignments
    split
    · have h0 : 0 ≤ totalCost (costMatrix costFn waiting_orders available_couriers lookup) p := by
        unfold totalCost
        apply List.sum_nonneg
        intro x hx
        obtain ⟨rc, _, rfl⟩ := List.mem_map.mp hx
        exact costMatrix_nonneg hnn _ _ _ _ _
      simpa [asgTotal] using h0
    · obtain ⟨q, hq, hperm⟩ := matching_complete hp
      calc asgTotal ((linear_sum_assignment
              (costMatrix costFn waiting_orders available_couriers lookup)
              waiting_orders.length available_couriers.length).filterMap
              (tier1_keep costFn waiting_orders available_couriers lookup))
          ≤ totalCost (costMatrix costFn waiting_orders available_couriers lookup)
              (linear_sum_assignment
                (costMatrix costFn waiting_orders available_couriers lookup)
                waiting_orders.length available_couriers.length) :=
            asgTotal_filterMap_le hnn _
        _ ≤ totalCost (costMatrix costFn waiting_orders available_couriers lookup) q :=
            linear_sum_assignment_opt _ _ _ q hq
        _ = totalCost (costMatrix costFn waiting_orders available_couriers lookup) p :=
            perm_totalCost hperm
  · intro rc hrc
    obtain ⟨_, _, _, hb⟩ := hp
    obtain ⟨hi, hj⟩ := hb rc hrc
    have ho : waiting_orders[rc.1]? = some waiting_orders[rc.1] :=
      List.getElem?_eq_getElem hi
    have hc : available_couriers[rc.2]? = some available_couriers[rc.2] :=
      List.getElem?_eq_getElem hj
    have homem : waiting_orders[rc.1] ∈ waiting_orders := List.getElem_mem hi
    obtain ⟨loc, hloc⟩ := Option.isSome_iff_exists.mp (hpres _ homem)
    refine ⟨waiting_orders[rc.1], available_couriers[rc.2], loc, ho, hc, hloc, ?_⟩
    simp [costMatrix, ho, hloc, hc]

/-- Witness for C2 on a concrete 2×2 batch against the pairing
`[(0,1),(1,0)]`. -/
theorem tier1_globally_optimal_witness :
    asgTotal (Tier1Baseline.make_assignments (fun _ _ _ => 1)
        [⟨1⟩, ⟨2⟩] [⟨7, 0, 0⟩, ⟨8, 3, 4⟩]
        (fun n => if n ≤ 2 then some ⟨0, 0, 4, 4, 7⟩ else none)) ≤
      totalCost (costMatrix (fun _ _ _ => 1) [⟨1⟩, ⟨2⟩] [⟨7, 0, 0⟩, ⟨8, 3, 4⟩]
        (fun n => if n ≤ 2 then some ⟨0, 0, 4, 4, 7⟩ else none)) [(0, 1), (1, 0)] ∧
    ∀ rc ∈ [((0 : Nat), (1 : Nat)), (1, 0)], ∃ o c loc,
      ([(⟨1⟩ : Order), ⟨2⟩])[rc.1]? = some o ∧
      ([(⟨7, 0, 0⟩ : Courier), ⟨8, 3, 4⟩])[rc.2]? = some c ∧
      (fun n => if n ≤ 2 then some (⟨0, 0, 4, 4, 7⟩ : OrderLoc) else none) o.order_id
        = some loc ∧
      costMatrix (fun _ _ _ => 1) [⟨1⟩, ⟨2⟩] [⟨7, 0, 0⟩, ⟨8, 3, 4⟩]
        (fun n => if n ≤ 2 then some ⟨0, 0, 4, 4, 7⟩ else none) rc.1 rc.2 = 1 :=
  tier1_globally_optimal (fun _ _ _ => 1) [⟨1⟩, ⟨2⟩] [⟨7, 0, 0⟩, ⟨8, 3, 4⟩]
    (fun n => if n ≤ 2 then some ⟨0, 0, 4, 4, 7⟩ else none)
    (by decide) (fun _ _ _ => zero_le_one) [(0, 1), (1, 0)] (by decide)

/-- C3 — an order absent from the location lookup has its entire
cost-matrix row set to the sentinel `1e9`, and no triple of the returned
assignment list ever carries such an order. -/
theorem tier1_missing_order_never_assigned (costFn : CostFn) (waiting_orders : List Order)
    (available_couriers : List Courier) (lookup : Lookup) :
    (∀ i j o, waiting_orders[i]? = some o → lookup o.order_id = none →
      costMatrix costFn waiting_orders available_couriers lookup i j = sentinel) ∧
    ∀ t ∈ Tier1Baseline.make_assignments costFn waiting_orders available_couriers lookup,
      (lookup t.1.order_id).isSome = true := by
  have hrow : ∀ i j o, waiting_orders[i]? = some o → lookup o.order_id = none →
      costMatrix costFn waiting_orders available_couriers lookup i j = sentinel := by
    intro i j o ho hlo
    simp [costMatrix, ho, hlo]
  refine ⟨hrow, ?_⟩
  intro t ht
  unfold Tier1Baseline.make_assignments at ht
  split at ht
  · cases ht
  · obtain ⟨rc, _, hk⟩ := List.mem_filterMap.mp ht
    obtain ⟨hguard, ho, _, _⟩ := tier1_keep_some hk
    cases hlo : lookup t.1.order_id with
    | none => exact absurd (le_of_eq (hrow rc.1 rc.2 t.1 ho hlo).symm) hguard
    | some loc => rfl

/-- Witness for C3: a concrete batch where the returned list is non-empty
and its order is indeed in the lookup. -/
theorem tier1_missing_order_never_assigned_witness :
    ((⟨1⟩, ⟨7, 0, 0⟩, (1 : ℚ)) ∈ Tier1Baseline.make_assignments (fun _ _ _ => 1)
        [⟨1⟩] [⟨7, 0, 0⟩] (fun n => if n = 1 then some ⟨0, 0, 4, 4, 7⟩ else none)) ∧
    ((fun n => if n = 1 then some (⟨0, 0, 4, 4, 7⟩ : OrderLoc) else none)
      (⟨1⟩ : Order).order_id).isSome = true :=
  ⟨by decide,
   (tier1_missing_order_never_assigned (fun _ _ _ => 1) [⟨1⟩] [⟨7, 0, 0⟩]
      (fun n => if n = 1 then some ⟨0, 0, 4, 4, 7⟩ else none)).2
     (⟨1⟩, ⟨7, 0, 0⟩, 1) (by decide)⟩

/-- C1 counterexample — a dispatch moment with a non-empty batch (one
waiting order, absent from the waybill lookup) and a non-empty courier
set, run through the Tier-1 strategy and phase E, emits zero assignment-log
records instead of one per waiting order: the `continue` on line 194 skips
orders missing from the lookup. -/
theorem assignment_log_skips_missing_order :
    Tier1Baseline.make_assignments (fun _ _ _ => 1) [⟨42⟩] [⟨7, 0, 0⟩] (fun _ => none) = [] ∧
    (assignmentLogRecords 100 [⟨42⟩]
      (Tier1Baseline.make_assignments (fun _ _ _ => 1) [⟨42⟩] [⟨7, 0, 0⟩] (fun _ => none))
      [] (fun _ => none) 1 1).length = 0 ∧
    [(⟨42⟩ : Order)].length = 1 ∧ [(⟨7, 0, 0⟩ : Courier)].length = 1 := by
  refine ⟨by decide, by decide, rfl, rfl⟩

/-! Tier 3: online greedy (`Tier3OnlineGreedy`). -/

/-- Embedding of `Tier3OnlineGreedy.assign_single_order` (lines 290–329):
scan the available couriers keeping the current best only on a strictly
smaller cost (`cost < min_cost`), so the first courier of minimal cost
wins; `None` when the courier list is empty or the order is missing from
the lookup. -/
def greedyFold {α : Type} (f : α → ℚ) (best : Option (α × ℚ)) (c : α) : Option (α × ℚ) :=
  match best with
  | none => some (c, f c)
  | some b => if f c < b.2 then some (c, f c) else some b

def Tier3OnlineGreedy.assign_single_order (costFn : CostFn) (order : Order)
    (available_couriers : List Courier) (lookup : Lookup) : Option (Courier × ℚ) :=
  if available_couriers = [] then none
  else
    match lookup order.order_id with
    | none => none
    | some loc =>
      available_couriers.foldl (greedyFold (fun c => costFn c order loc)) none

/-- The loop of `Tier3OnlineGreedy.make_assignments` (lines 338–357);
`used` is the `used_couriers` id set, `couriers` the unchanging
`remaining_couriers` list. -/
def Tier3OnlineGreedy.go (costFn : CostFn) (lookup : Lookup) :
    List Order → List Courier → List Nat → List Asg
  | [], _, _ => []
  | o :: os, couriers, used =>
    if couriers.filter (fun c => decide (c.courier_id ∉ used)) = [] then []
    else
      match Tier3OnlineGreedy.assign_single_order costFn o
          (couriers.filter (fun c => decide (c.courier_id ∉ used))) lookup with
      | none => Tier3OnlineGreedy.go costFn lookup os couriers used
      | some (c, cost) =>
        (o, c, cost) :: Tier3OnlineGreedy.go costFn lookup os couriers (c.courier_id :: used)

/-- Embedding of `Tier3OnlineGreedy.make_assignments` (lines 331–357). -/
def Tier3OnlineGreedy.make_assignments (costFn : CostFn) (waiting_orders : List Order)
    (available_couriers : List Courier) (lookup : Lookup) : List Asg :=
  Tier3OnlineGreedy.go costFn lookup waiting_orders available_couriers []

/-- First element of `l` attaining the minimal `f`-value (ties resolved in
favour of the earlier element). -/
def firstMinBy {α : Type} (f : α → ℚ) : List α → Option α
  | [] => none
  | a :: as =>
    match firstMinBy f as with
    | none => some a
    | some b => if f b < f a then some b else some a

/-- Modelled from the spec (the OnlineGreedy contract, §4.2): orders are
processed one at a time in the order presented; each order takes the first
minimum-cost courier not yet consumed; a consumed courier is removed from
consideration for the remainder of the pass; an order missing from the
lookup is skipped.  Specification side of the refinement theorem for C8. -/
def greedySpec (costFn : CostFn) (lookup : Lookup) : List Order → List Courier → List Asg
  | [], _ => []
  | o :: os, couriers =>
    if couriers = [] then []
    else
      match lookup o.order_id with
      | none => greedySpec costFn lookup os couriers
      | some loc =>
        match firstMinBy (fun c => costFn c o loc) couriers with
        | none => greedySpec costFn lookup os couriers
        | some c =>
          (o, c, costFn c o loc) ::
            greedySpec costFn lookup os
              (couriers.filter (fun c' => decide (c'.courier_id ≠ c.courier_id)))

theorem firstMinBy_mem {α : Type} {f : α → ℚ} :
    ∀ {l : List α} {c : α}, firstMinBy f l = some c → c ∈ l := by
  intro l
  induction l with
  | nil => intro c h; cases h
  | cons a t ih =>
    intro c h
    unfold firstMinBy at h
    cases hft : firstMinBy f t with
    | none =>
      simp only [hft] at h
      injection h with h
      exact h ▸ List.mem_cons_self a t
    | some b =>
      simp only [hft] at h
      by_cases hba : f b < f a
      · rw [if_pos hba] at h
        injection h with h
        exact List.mem_cons_of_mem a (h ▸ ih hft)
      · rw [if_neg hba] at h
        injection h with h
        exact h ▸ List.mem_cons_self a t

theorem firstMinBy_isSome {α : Type} (f : α → ℚ) {l : List α} (hl : l ≠ []) :
    ∃ c, firstMinBy f l = some c := by
  cases l with
  | nil => exact absurd rfl hl
  | cons a t =>
    unfold firstMinBy
    cases firstMinBy f t with
    | none => exact ⟨a, rfl⟩
    | some b =>
      by_cases hba : f b < f a
      · exact ⟨b, by simp [hba]⟩
      · exact ⟨a, by simp [hba]⟩

theorem foldl_first_min {α : Type} (f : α → ℚ) :
    ∀ (l : List α) (b : α × ℚ), b.2 = f b.1 →
      l.foldl (greedyFold f) (some b) =
      (firstMinBy f (b.1 :: l)).map (fun c => (c, f c)) := by
  intro l
  induction l with
  | nil =>
    intro b hb
    have hbext : b = (b.1, f b.1) := by
      cases b
      simp_all
    simp [firstMinBy, ← hbext]
  | cons c t ih =>
    intro b hb
    rw [List.foldl_cons]
    have hstep : greedyFold f (some b) c =
        some (if f c < f b.1 then (c, f c) else b) := by
      show (if f c < b.2 then some (c, f c) else some b) =
        some (if f c < f b.1 then (c, f c) else b)
      rw [hb]
      by_cases hcb : f c < f b.1
      · simp [hcb]
      · simp [hcb]
    rw [hstep]
    have hb' : (if f c < f b.1 then (c, f c) else b).2 =
        f (if f c < f b.1 then (c, f c) else b).1 := by
      by_cases hcb : f c < f b.1
      · simp [hcb]
      · simp [hcb, hb]
    rw [ih _ hb']
    congr 1
    show firstMinBy f ((if f c < f b.1 then (c, f c) else b).1 :: t) =
      firstMinBy f (b.1 :: c :: t)
    cases hft : firstMinBy f t with
    | none =>
      by_cases hcb : f c < f b.1 <;>
        simp [firstMinBy, hft, hcb]
    | some m =>
      by_cases hcb : f c < f b.1
      · by_cases hmc : f m < f c
        · have hmb : f m < f b.1 := lt_trans hmc hcb
          simp [firstMinBy, hft, hcb, hmc, hmb]
        · simp [firstMinBy, hft, hcb, hmc]
      · by_cases hmc : f m < f c
        · simp [firstMinBy, hft, hcb, hmc]
        · have hmb : ¬ f m < f b.1 := fun h =>
            hcb (lt_of_le_of_lt (le_of_not_lt hmc) h)
          simp [firstMinBy, hft, hcb, hmc, hmb]

theorem assign_single_eq_firstMin (costFn : CostFn) (o : Order) (l : List Courier)
    (lookup : Lookup) (hl : l ≠ []) :
    Tier3OnlineGreedy.assign_single_order costFn o l lookup =
      match lookup o.order_id with
      | none => none
      | some loc =>
        (firstMinBy (fun c => costFn c o loc) l).map (fun c => (c, costFn c o loc)) := by
  unfold Tier3OnlineGreedy.assign_single_order
  rw [if_neg hl]
  cases lookup o.order_id with
  | none => rfl
  | some loc =>
    show l.foldl (greedyFold fun c => costFn c o loc) none =
      Option.map (fun c => (c, costFn c o loc)) (firstMinBy (fun c => costFn c o loc) l)
    cases l with
    | nil => exact absurd rfl hl
    | cons c₀ t =>
      rw [List.foldl_cons]
      show t.foldl (greedyFold fun c => costFn c o loc)
          (some (c₀, costFn c₀ o loc)) = _
      exact foldl_first_min (fun c => costFn c o loc) t (c₀, costFn c₀ o loc) rfl

theorem filter_cons_used (couriers : List Courier) (cid : Nat) (used : List Nat) :
    couriers.filter (fun c => decide (c.courier_id ∉ cid :: used)) =
      (couriers.filter (fun c => decide (c.courier_id ∉ used))).filter
        (fun c => decide (c.courier_id ≠ cid)) := by
  rw [List.filter_filter]
  apply List.filter_congr
  intro x _
  by_cases h1 : x.courier_id = cid <;> by_cases h2 : x.courier_id ∈ used <;>
    simp [h1, h2]

theorem tier3_go_eq_greedy (costFn : CostFn) (lookup : Lookup) (couriers : List Courier) :
    ∀ (os : List Order) (used : List Nat),
      Tier3OnlineGreedy.go costFn lookup os couriers used =
        greedySpec costFn lookup os
          (couriers.filter (fun c => decide (c.courier_id ∉ used))) := by
  intro os
  induction os with
  | nil => intro used; rfl
  | cons o os ih =>
    intro used
    by_cases hav : couriers.filter (fun c => decide (c.courier_id ∉ used)) = []
    · rw [Tier3OnlineGreedy.go, greedySpec, if_pos hav, if_pos hav]
    · rw [Tier3OnlineGreedy.go, greedySpec, if_neg hav, if_neg hav]
      rw [assign_single_eq_firstMin costFn o _ lookup hav]
      cases hlo : lookup o.order_id with
      | none => exact ih used
      | some loc =>
        obtain ⟨c, hc⟩ := firstMinBy_isSome (fun c => costFn c o loc) hav
        show (match (firstMinBy (fun c => costFn c o loc)
            (couriers.filter (fun c => decide (c.courier_id ∉ used)))).map
            (fun c => (c, costFn c o loc)) with
          | none => Tier3OnlineGreedy.go costFn lookup os couriers used
          | some (c, cost) =>
            (o, c, cost) ::
              Tier3OnlineGreedy.go costFn lookup os couriers (c.courier_id :: used)) =
          (match firstMinBy (fun c => costFn c o loc)
              (couriers.filter (fun c => decide (c.courier_id ∉ used))) with
          | none => greedySpec costFn lookup os
              (couriers.filter (fun c => decide (c.courier_id ∉ used)))
          | some c => (o, c, costFn c o loc) ::
              greedySpec costFn lookup os
                ((couriers.filter (fun c => decide (c.courier_id ∉ used))).filter
                  (fun c' => decide (c'.courier_id ≠ c.courier_id))))
        rw [hc]
        show (o, c, costFn c o loc) ::
            Tier3OnlineGreedy.go costFn lookup os couriers (c.courier_id :: used) =
          (o, c, costFn c o loc) ::
            greedySpec costFn lookup os
              ((couriers.filter (fun c => decide (c.courier_id ∉ used))).filter
                (fun c' => decide (c'.courier_id ≠ c.courier_id)))
        rw [ih (c.courier_id :: used), filter_cons_used]

theorem tier3_eq_greedy (costFn : CostFn) (waiting_orders : List Order)
    (available_couriers : List Courier) (lookup : Lookup) :
    Tier3OnlineGreedy.make_assignments costFn waiting_orders available_couriers lookup =
      greedySpec costFn lookup waiting_orders available_couriers := by
  unfold Tier3OnlineGreedy.make_assignments
  rw [tier3_go_eq_greedy]
  congr 1
  simp

/-- C8 — the OnlineGreedy strategy refines its specification: orders are
processed one at a time in the order presented; each order is assigned the
first minimum-cost courier not yet consumed in the pass (ties to the first
courier in input iteration order); every consumed courier is removed from
consideration for the remainder of the pass. -/
theorem tier3_matches_greedy_spec (costFn : CostFn) (waiting_orders : List Order)
    (available_couriers : List Courier) (lookup : Lookup) :
    Tier3OnlineGreedy.make_assignments costFn waiting_orders available_couriers lookup =
      greedySpec costFn lookup waiting_orders available_couriers :=
  tier3_eq_greedy costFn waiting_orders available_couriers lookup

/-! Cardinality and uniqueness facts about the greedy pass. -/

theorem greedySpec_cons_nil (costFn : CostFn) (lookup : Lookup) (o : Order)
    (os : List Order) : greedySpec costFn lookup (o :: os) [] = [] := rfl

theorem greedySpec_cons_none {costFn : CostFn} {lookup : Lookup} {o : Order}
    {os : List Order} {cs : List Courier} (hcs : cs ≠ [])
    (hlo : lookup o.order_id = none) :
    greedySpec costFn lookup (o :: os) cs = greedySpec costFn lookup os cs := by
  simp only [greedySpec]
  rw [if_neg hcs, hlo]

theorem greedySpec_cons_some {costFn : CostFn} {lookup : Lookup} {o : Order}
    {os : List Order} {cs : List Courier} {loc : OrderLoc} {c : Courier} (hcs : cs ≠ [])
    (hlo : lookup o.order_id = some loc)
    (hfm : firstMinBy (fun c => costFn c o loc) cs = some c) :
    greedySpec costFn lookup (o :: os) cs =
      (o, c, costFn c o loc) :: greedySpec costFn lookup os
        (cs.filter (fun c' => decide (c'.courier_id ≠ c.courier_id))) := by
  simp only [greedySpec]
  rw [if_neg hcs, hlo]
  show (match firstMinBy (fun c => costFn c o loc) cs with
    | none => greedySpec costFn lookup os cs
    | some c => (o, c, costFn c o loc) :: greedySpec costFn lookup os
        (cs.filter (fun c' => decide (c'.courier_id ≠ c.courier_id)))) = _
  rw [hfm]

theorem length_filter_lt {α : Type} {l : List α} {p : α → Bool} {a : α}
    (ha : a ∈ l) (hpa : p a = false) : (l.filter p).length < l.length := by
  induction l with
  | nil => cases ha
  | cons b t ih =>
    rcases List.mem_cons.mp ha with rfl | ha'
    · rw [List.filter_cons_of_neg (by simp [hpa])]
      exact Nat.lt_succ_of_le (List.length_filter_le p t)
    · cases hpb : p b
      · rw [List.filter_cons_of_neg (by simp [hpb])]
        exact Nat.lt_succ_of_lt (ih ha')
      · rw [List.filter_cons_of_pos (by simp [hpb])]
        simpa using ih ha'

theorem greedy_length_le (costFn : CostFn) (lookup : Lookup) :
    ∀ (os : List Order) (cs : List Courier),
      (greedySpec costFn lookup os cs).length ≤ min os.length cs.length := by
  intro os
  induction os with
  | nil => intro cs; simp [greedySpec]
  | cons o os ih =>
    intro cs
    by_cases hcs : cs = []
    · subst hcs
      rw [greedySpec_cons_nil]
      simp
    · cases hlo : lookup o.order_id with
      | none =>
        rw [greedySpec_cons_none hcs hlo]
        exact le_trans (ih cs) (min_le_min (Nat.le_succ _) le_rfl)
      | some loc =>
        obtain ⟨c, hc⟩ := firstMinBy_isSome (fun c => costFn c o loc) hcs
        rw [greedySpec_cons_some hcs hlo hc]
        have hA : (greedySpec costFn lookup os
            (cs.filter (fun c' => decide (c'.courier_id ≠ c.courier_id)))).length ≤ os.length :=
          le_trans (ih _) (min_le_left _ _)
        have hB : (greedySpec costFn lookup os
            (cs.filter (fun c' => decide (c'.courier_id ≠ c.courier_id)))).length ≤
            (cs.filter (fun c' => decide (c'.courier_id ≠ c.courier_id))).length :=
          le_trans (ih _) (min_le_right _ _)
        have hC : (cs.filter (fun c' => decide (c'.courier_id ≠ c.courier_id))).length <
            cs.length :=
          length_filter_lt (firstMinBy_mem hc) (by simp)
        simp only [List.length_cons]
        exact le_min (by omega) (by omega)

theorem greedy_courier_mem (costFn : CostFn) (lookup : Lookup) :
    ∀ (os : List Order) (cs : List Courier) (t : Asg),
      t ∈ greedySpec costFn lookup os cs → t.2.1 ∈ cs := by
  intro os
  induction os with
  | nil => intro cs t ht; cases ht
  | cons o os ih =>
    intro cs t ht
    by_cases hcs : cs = []
    · subst hcs
      rw [greedySpec_cons_nil] at ht
      cases ht
    · cases hlo : lookup o.order_id with
      | none =>
        rw [greedySpec_cons_none hcs hlo] at ht
        exact ih cs t ht
      | some loc =>
        obtain ⟨c, hc⟩ := firstMinBy_isSome (fun c => costFn c o loc) hcs
        rw [greedySpec_cons_some hcs hlo hc] at ht
        rcases List.mem_cons.mp ht with rfl | htail
        · exact firstMinBy_mem hc
        · exact List.mem_of_mem_filter (ih _ t htail)

theorem greedy_courier_ids_nodup (costFn : CostFn) (lookup : Lookup) :
    ∀ (os : List Order) (cs : List Courier),
      ((greedySpec costFn lookup os cs).map (fun t => t.2.1.courier_id)).Nodup := by
  intro os
  induction os with
  | nil => intro cs; simp [greedySpec]
  | cons o os ih =>
    intro cs
    by_cases hcs : cs = []
    · subst hcs
      rw [greedySpec_cons_nil]
      simp
    · cases hlo : lookup o.order_id with
      | none =>
        rw [greedySpec_cons_none hcs hlo]
        exact ih cs
      | some loc =>
        obtain ⟨c, hc⟩ := firstMinBy_isSome (fun c => costFn c o loc) hcs
        rw [greedySpec_cons_some hcs hlo hc, List.map_cons]
        refine List.nodup_cons.mpr ⟨?_, ih _⟩
        intro hmem
        obtain ⟨t, htmem, htid⟩ := List.mem_map.mp hmem
        have hmemf : t.2.1 ∈ cs.filter (fun c' => decide (c'.courier_id ≠ c.courier_id)) :=
          greedy_courier_mem costFn lookup os _ t htmem
        have hne := List.of_mem_filter hmemf
        simp only [decide_eq_true_eq] at hne
        exact hne htid

theorem greedy_order_ids_sublist (costFn : CostFn) (lookup : Lookup) :
    ∀ (os : List Order) (cs : List Courier),
      List.Sublist ((greedySpec costFn lookup os cs).map (fun t => t.1.order_id))
        (os.map Order.order_id) := by
  intro os
  induction os with
  | nil => intro cs; simp [greedySpec]
  | cons o os ih =>
    intro cs
    by_cases hcs : cs = []
    · subst hcs
      rw [greedySpec_cons_nil]
      exact List.nil_sublist _
    · cases hlo : lookup o.order_id with
      | none =>
        rw [greedySpec_cons_none hcs hlo]
        exact (ih cs).cons _
      | some loc =>
        obtain ⟨c, hc⟩ := firstMinBy_isSome (fun c => costFn c o loc) hcs
        rw [greedySpec_cons_some hcs hlo hc, List.map_cons, List.map_cons]
        exact (ih _).cons₂ _

/-! Tier 2: cluster-then-route (`Tier2BatchVRP`). -/

/-- Model of `np.argmin` over a list: first index of the minimum (`0` on
the empty list, which `np.argmin` rejects). -/
def argminIdx {α : Type} (f : α → ℚ) (l : List α) : Nat :=
  match l.enum with
  | [] => 0
  | e :: es => (es.foldl (fun best x => if f x.2 < f best.2 then x else best) e).1

/-- The `valid_orders` list of `Tier2BatchVRP.make_assignments`
(lines 156–165): the batch orders present in the lookup, in batch order. -/
def tier2_valid_orders (waiting_orders : List Order) (lookup : Lookup) : List Order :=
  waiting_orders.filter (fun o => (lookup o.order_id).isSome)

/-- The `order_locations` array (same pass): pickup coordinates of the
valid orders. -/
def tier2_order_locations (waiting_orders : List Order) (lookup : Lookup) : List (ℚ × ℚ) :=
  waiting_orders.filterMap (fun o =>
    (lookup o.order_id).map (fun loc => (loc.sender_lat, loc.sender_lng)))

/-- The cluster count `k` of lines 173–177:
`ceil(|valid| / max_bundle_size)` clamped to the courier count and to at
least 1 (Python would divide by zero on `max_bundle_size = 0`; the
constructor default is 5). -/
def tier2_k (n_valid n_couriers max_bundle_size : Nat) : Nat :=
  max 1 (min n_couriers ((n_valid + max_bundle_size - 1) / max_bundle_size))

/-- `order_locations.mean(axis=0)`: coordinate-wise mean. -/
def meanPoint (locs : List (ℚ × ℚ)) : ℚ × ℚ :=
  ((locs.map Prod.fst).sum / locs.length, (locs.map Prod.snd).sum / locs.length)

/-- Step 2 of `Tier2BatchVRP.make_assignments` (lines 172–197): cluster
label of every valid order, and the centroid list.  `kmeansModel` abstracts
`scipy.cluster.vq.kmeans` (randomized library code from outside the repository), `dist`
abstracts `np.linalg.norm` of the difference of two points (irrational in
general); the two degenerate branches of the source use neither. -/
def tier2_clustering (dist : ℚ × ℚ → ℚ × ℚ → ℚ)
    (kmeansModel : List (ℚ × ℚ) → Nat → List (ℚ × ℚ))
    (locs : List (ℚ × ℚ)) (k : Nat) : List Nat × List (ℚ × ℚ) :=
  if k = 1 then
    (List.replicate locs.length 0, [meanPoint locs])
  else if k ≥ locs.length then
    (List.range locs.length, locs)
  else
    (locs.map (fun loc => argminIdx (fun c => dist loc c) (kmeansModel locs k)),
      kmeansModel locs k)

/-- `np.unique`: the distinct values, sorted ascending. -/
def insertSorted (a : Nat) : List Nat → List Nat
  | [] => [a]
  | b :: t => if a ≤ b then a :: b :: t else b :: insertSorted a t

def sortedUnique (l : List Nat) : List Nat := l.dedup.foldr insertSorted []

theorem insertSorted_perm (a : Nat) :
    ∀ l : List Nat, List.Perm (insertSorted a l) (a :: l)
  | [] => List.Perm.refl _
  | b :: t => by
    unfold insertSorted
    by_cases hab : a ≤ b
    · rw [if_pos hab]
    · rw [if_neg hab]
      exact List.Perm.trans ((insertSorted_perm a t).cons b) (List.Perm.swap a b t)

theorem foldr_insertSorted_perm :
    ∀ m : List Nat, List.Perm (m.foldr insertSorted []) m
  | [] => List.Perm.refl _
  | a :: t => by
    rw [List.foldr_cons]
    exact List.Perm.trans (insertSorted_perm a _) ((foldr_insertSorted_perm t).cons a)

theorem sortedUnique_perm_dedup (l : List Nat) :
    List.Perm (sortedUnique l) l.dedup := foldr_insertSorted_perm l.dedup

theorem sortedUnique_nodup (l : List Nat) : (sortedUnique l).Nodup :=
  (sortedUnique_perm_dedup l).nodup_iff.mpr (List.nodup_dedup l)

/-- The `centroids[cluster_idx] if cluster_idx < len(centroids) else
centroids[-1]` guard of line 208 (`(0, 0)` if the centroid list is empty, a
state the source would crash on). -/
def tier2_centroid (centroids : List (ℚ × ℚ)) (cl : Nat) : ℚ × ℚ :=
  (centroids[cl]?).getD ((centroids.getLast?).getD (0, 0))

/-- The `cluster_cost_matrix` of lines 204–215: courier-to-centroid
distance per (distinct cluster, courier). -/
def tier2_cluster_cost (dist : ℚ × ℚ → ℚ × ℚ → ℚ) (available_couriers : List Courier)
    (uniq : List Nat) (centroids : List (ℚ × ℚ)) (i j : Nat) : ℚ :=
  match uniq[i]?, available_couriers[j]? with
  | some cl, some c => dist (c.rider_lat, c.rider_lng) (tier2_centroid centroids cl)
  | _, _ => 0

/-- The `cluster_to_courier` dict of lines 217–226, read at one cluster
label. -/
def tier2_cluster_to_courier (dist : ℚ × ℚ → ℚ × ℚ → ℚ)
    (available_couriers : List Courier) (uniq : List Nat)
    (centroids : List (ℚ × ℚ)) (cl : Nat) : Option Courier :=
  ((linear_sum_assignment (tier2_cluster_cost dist available_couriers uniq centroids)
      uniq.length available_couriers.length).find?
    (fun rc => uniq[rc.1]? == some cl)).bind (fun rc => available_couriers[rc.2]?)

/-- The per-cluster emission loop of lines 231–262: every valid order whose
label is `cl` is paired with the cluster's courier at the configured cost
(the `none` branch of the inner lookup is unreachable: valid orders are in
the lookup). -/
def tier2_emit (costFn : CostFn) (lookup : Lookup) (valid_orders : List Order)
    (clusters : List Nat) (cl : Nat) (courier : Courier) : List Asg :=
  ((valid_orders.zip clusters).filter (fun oc => oc.2 == cl)).map (fun oc =>
    match lookup oc.1.order_id with
    | none => (oc.1, courier, 0)
    | some loc => (oc.1, courier, costFn courier oc.1 loc))

/-- One iteration of the cluster loop (lines 231–262): nothing if the
cluster got no courier (`continue` on line 240), else its emitted orders. -/
def tier2_cluster_block (costFn : CostFn) (lookup : Lookup) (valid_orders : List Order)
    (clusters : List Nat) (chosen : Option Courier) (cl : Nat) : List Asg :=
  match chosen with
  | none => []
  | some courier => tier2_emit costFn lookup valid_orders clusters cl courier

/-- Embedding of `Tier2BatchVRP.make_assignments` (lines 143–264). -/
def Tier2BatchVRP.make_assignments (costFn : CostFn) (dist : ℚ × ℚ → ℚ × ℚ → ℚ)
    (kmeansModel : List (ℚ × ℚ) → Nat → List (ℚ × ℚ)) (max_bundle_size : Nat)
    (waiting_orders : List Order) (available_couriers : List Courier) (lookup : Lookup) :
    List Asg :=
  if waiting_orders = [] ∨ available_couriers = [] then []
  else if tier2_valid_orders waiting_orders lookup = [] then []
  else
    (sortedUnique (tier2_clustering dist kmeansModel
        (tier2_order_locations waiting_orders lookup)
        (tier2_k (tier2_valid_orders waiting_orders lookup).length
          available_couriers.length max_bundle_size)).1).flatMap
      (fun cl =>
        tier2_cluster_block costFn lookup (tier2_valid_orders waiting_orders lookup)
          (tier2_clustering dist kmeansModel
            (tier2_order_locations waiting_orders lookup)
            (tier2_k (tier2_valid_orders waiting_orders lookup).length
              available_couriers.length max_bundle_size)).1
          (tier2_cluster_to_courier dist available_couriers
            (sortedUnique (tier2_clustering dist kmeansModel
              (tier2_order_locations waiting_orders lookup)
              (tier2_k (tier2_valid_orders waiting_orders lookup).length
                available_couriers.length max_bundle_size)).1)
            (tier2_clustering dist kmeansModel
              (tier2_order_locations waiting_orders lookup)
              (tier2_k (tier2_valid_orders waiting_orders lookup).length
                available_couriers.length max_bundle_size)).2 cl) cl)

theorem tier2_locations_length (waiting_orders : List Order) (lookup : Lookup) :
    (tier2_order_locations waiting_orders lookup).length =
      (tier2_valid_orders waiting_orders lookup).length := by
  induction waiting_orders with
  | nil => rfl
  | cons o rest ih =>
    cases hlo : lookup o.order_id with
    | none => simp [tier2_order_locations, tier2_valid_orders, List.filter_cons, hlo] at ih ⊢; exact ih
    | some loc => simp [tier2_order_locations, tier2_valid_orders, List.filter_cons, hlo] at ih ⊢; exact ih

theorem tier2_clusters_length (dist : ℚ × ℚ → ℚ × ℚ → ℚ)
    (kmeansModel : List (ℚ × ℚ) → Nat → List (ℚ × ℚ)) (locs : List (ℚ × ℚ)) (k : Nat) :
    ((tier2_clustering dist kmeansModel locs k).1).length = locs.length := by
  unfold tier2_clustering
  split
  · simp
  · split
    · simp
    · simp

/-- C7 — for a non-empty batch whose orders are all in the lookup, with at
least one courier: the cluster count is
`k = ceil(|orders| / max_bundle_size)`, at least 1, clamped to the courier
count; `k = 1` puts every order in a single cluster whose centroid is the
mean pickup location; `k ≥ |orders|` makes every order its own singleton
cluster. -/
theorem tier2_cluster_structure (dist : ℚ × ℚ → ℚ × ℚ → ℚ)
    (kmeansModel : List (ℚ × ℚ) → Nat → List (ℚ × ℚ))
    (waiting_orders : List Order) (available_couriers : List Courier) (lookup : Lookup)
    (max_bundle_size : Nat) (hB : 1 ≤ max_bundle_size) (hw : waiting_orders ≠ [])
    (hc : available_couriers ≠ [])
    (hpres : ∀ o ∈ waiting_orders, (lookup o.order_id).isSome = true) :
    tier2_k (tier2_valid_orders waiting_orders lookup).length
        available_couriers.length max_bundle_size =
      min available_couriers.length
        (max 1 ((waiting_orders.length + max_bundle_size - 1) / max_bundle_size)) ∧
    (tier2_k (tier2_valid_orders waiting_orders lookup).length
        available_couriers.length max_bundle_size = 1 →
      tier2_clustering dist kmeansModel (tier2_order_locations waiting_orders lookup) 1 =
        (List.replicate waiting_orders.length 0,
          [meanPoint (tier2_order_locations waiting_orders lookup)])) ∧
    (waiting_orders.length ≤ tier2_k (tier2_valid_orders waiting_orders lookup).length
        available_couriers.length max_bundle_size →
      tier2_clustering dist kmeansModel (tier2_order_locations waiting_orders lookup)
          (tier2_k (tier2_valid_orders waiting_orders lookup).length
            available_couriers.length max_bundle_size) =
        (List.range waiting_orders.length, tier2_order_locations waiting_orders lookup)) := by
  have hvw : tier2_valid_orders waiting_orders lookup = waiting_orders :=
    List.filter_eq_self.mpr hpres
  have hlw : (tier2_order_locations waiting_orders lookup).length = waiting_orders.length := by
    rw [tier2_locations_length, hvw]
  have hw1 : 1 ≤ waiting_orders.length := List.length_pos.mpr hw
  have hc1 : 1 ≤ available_couriers.length := List.length_pos.mpr hc
  have hd1 : 1 ≤ (waiting_orders.length + max_bundle_size - 1) / max_bundle_size := by
    rw [Nat.le_div_iff_mul_le (by omega)]
    omega
  refine ⟨?_, ?_, ?_⟩
  · rw [hvw]
    unfold tier2_k
    rw [max_eq_right (le_min hc1 hd1), max_eq_right hd1]
  · intro hk
    unfold tier2_clustering
    rw [if_pos rfl, hlw]
  · intro hk
    by_cases hk1 : tier2_k (tier2_valid_orders waiting_orders lookup).length
        available_couriers.length max_bundle_size = 1
    · have hlen1 : waiting_orders.length = 1 := by omega
      obtain ⟨l₀, hl₀⟩ := List.length_eq_one.mp (hlw.trans hlen1)
      rw [hk1]
      unfold tier2_clustering
      rw [if_pos rfl]
      rw [hl₀, hlen1]
      have hmean : meanPoint [l₀] = l₀ := by
        unfold meanPoint
        simp
      rw [hmean]
      rfl
    · unfold tier2_clustering
      rw [if_neg hk1, if_pos (by rw [hlw]; exact hk), hlw]

/-- Witness for C7 on a two-order, one-courier batch. -/
theorem tier2_cluster_structure_witness :
    tier2_k (tier2_valid_orders [⟨1⟩, ⟨2⟩]
        (fun n => if n ≤ 2 then some ⟨0, 0, 4, 4, 7⟩ else none)).length
        [(⟨7, 0, 0⟩ : Courier)].length 5 =
      min [(⟨7, 0, 0⟩ : Courier)].length
        (max 1 (([(⟨1⟩ : Order), ⟨2⟩].length + 5 - 1) / 5)) ∧
    (tier2_k (tier2_valid_orders [⟨1⟩, ⟨2⟩]
        (fun n => if n ≤ 2 then some ⟨0, 0, 4, 4, 7⟩ else none)).length
        [(⟨7, 0, 0⟩ : Courier)].length 5 = 1 →
      tier2_clustering (fun _ _ => 0) (fun _ _ => [])
          (tier2_order_locations [⟨1⟩, ⟨2⟩]
            (fun n => if n ≤ 2 then some ⟨0, 0, 4, 4, 7⟩ else none)) 1 =
        (List.replicate [(⟨1⟩ : Order), ⟨2⟩].length 0,
          [meanPoint (tier2_order_locations [⟨1⟩, ⟨2⟩]
            (fun n => if n ≤ 2 then some ⟨0, 0, 4, 4, 7⟩ else none))])) ∧
    ([(⟨1⟩ : Order), ⟨2⟩].length ≤ tier2_k (tier2_valid_orders [⟨1⟩, ⟨2⟩]
        (fun n => if n ≤ 2 then some ⟨0, 0, 4, 4, 7⟩ else none)).length
        [(⟨7, 0, 0⟩ : Courier)].length 5 →
      tier2_clustering (fun _ _ => 0) (fun _ _ => [])
          (tier2_order_locations [⟨1⟩, ⟨2⟩]
            (fun n => if n ≤ 2 then some ⟨0, 0, 4, 4, 7⟩ else none))
          (tier2_k (tier2_valid_orders [⟨1⟩, ⟨2⟩]
            (fun n => if n ≤ 2 then some ⟨0, 0, 4, 4, 7⟩ else none)).length
            [(⟨7, 0, 0⟩ : Courier)].length 5) =
        (List.range [(⟨1⟩ : Order), ⟨2⟩].length,
          tier2_order_locations [⟨1⟩, ⟨2⟩]
            (fun n => if n ≤ 2 then some ⟨0, 0, 4, 4, 7⟩ else none))) :=
  tier2_cluster_structure (fun _ _ => 0) (fun _ _ => []) [⟨1⟩, ⟨2⟩] [⟨7, 0, 0⟩]
    (fun n => if n ≤ 2 then some ⟨0, 0, 4, 4, 7⟩ else none) 5
    (by decide) (by decide) (by decide) (by decide)

/-! Uniqueness of orders and couriers in the returned lists (C4). -/

theorem filterMap_proj_nodup {α β γ : Type} (l : List α) (F : α → Option β) (g : β → γ)
    (f : α → γ) (hcomp : ∀ a b, F a = some b → g b = f a) (hnd : (l.map f).Nodup) :
    ((l.filterMap F).map g).Nodup := by
  induction l with
  | nil => simp
  | cons a t ih =>
    rw [List.map_cons] at hnd
    have hout := (List.nodup_cons.mp hnd).1
    have hnd' := (List.nodup_cons.mp hnd).2
    rw [List.filterMap_cons]
    cases hFa : F a with
    | none => exact ih hnd'
    | some b =>
      rw [List.map_cons]
      refine List.nodup_cons.mpr ⟨?_, ih hnd'⟩
      intro hmem
      obtain ⟨b', hb', hgb'⟩ := List.mem_map.mp hmem
      obtain ⟨a', ha', hFa'⟩ := List.mem_filterMap.mp hb'
      apply hout
      rw [← hcomp a b hFa, ← hgb', hcomp a' b' hFa']
      exact List.mem_map.mpr ⟨a', ha', rfl⟩

/-- The order id at row `i` of the batch (`0` out of range). -/
def orderIdAt (waiting_orders : List Order) (i : Nat) : Nat :=
  ((waiting_orders[i]?).map Order.order_id).getD 0

/-- The courier id at column `j` of the snapshot (`0` out of range). -/
def courierIdAt (available_couriers : List Courier) (j : Nat) : Nat :=
  ((available_couriers[j]?).map Courier.courier_id).getD 0

theorem orderIdAt_inj {waiting_orders : List Order}
    (hnd : (waiting_orders.map Order.order_id).Nodup) {i j : Nat}
    (hi : i < waiting_orders.length) (hj : j < waiting_orders.length)
    (h : orderIdAt waiting_orders i = orderIdAt waiting_orders j) : i = j := by
  unfold orderIdAt at h
  rw [List.getElem?_eq_getElem hi, List.getElem?_eq_getElem hj] at h
  simp at h
  have hi' : i < (waiting_orders.map Order.order_id).length := by simpa using hi
  have hj' : j < (waiting_orders.map Order.order_id).length := by simpa using hj
  have hmap : (waiting_orders.map Order.order_id).get ⟨i, hi'⟩ =
      (waiting_orders.map Order.order_id).get ⟨j, hj'⟩ := by
    rw [List.get_eq_getElem, List.get_eq_getElem, List.getElem_map, List.getElem_map]
    exact h
  exact congrArg Fin.val ((hnd.get_inj_iff).mp hmap)

theorem courierIdAt_inj {available_couriers : List Courier}
    (hnd : (available_couriers.map Courier.courier_id).Nodup) {i j : Nat}
    (hi : i < available_couriers.length) (hj : j < available_couriers.length)
    (h : courierIdAt available_couriers i = courierIdAt available_couriers j) : i = j := by
  unfold courierIdAt at h
  rw [List.getElem?_eq_getElem hi, List.getElem?_eq_getElem hj] at h
  simp at h
  have hi' : i < (available_couriers.map Courier.courier_id).length := by simpa using hi
  have hj' : j < (available_couriers.map Courier.courier_id).length := by simpa using hj
  have hmap : (available_couriers.map Courier.courier_id).get ⟨i, hi'⟩ =
      (available_couriers.map Courier.courier_id).get ⟨j, hj'⟩ := by
    rw [List.get_eq_getElem, List.get_eq_getElem, List.getElem_map, List.getElem_map]
    exact h
  exact congrArg Fin.val ((hnd.get_inj_iff).mp hmap)

theorem tier1_card (costFn : CostFn) (waiting_orders : List Order)
    (available_couriers : List Courier) (lookup : Lookup)
    (hoid : (waiting_orders.map Order.order_id).Nodup)
    (hcid : (available_couriers.map Courier.courier_id).Nodup) :
    (Tier1Baseline.make_assignments costFn waiting_orders available_couriers lookup).length ≤
      min waiting_orders.length available_couriers.length ∧
    ((Tier1Baseline.make_assignments costFn waiting_orders available_couriers lookup).map
      (fun t => t.1.order_id)).Nodup ∧
    ((Tier1Baseline.make_assignments costFn waiting_orders available_couriers lookup).map
      (fun t => t.2.1.courier_id)).Nodup := by
  unfold Tier1Baseline.make_assignments
  split
  · exact ⟨by simp, by simp, by simp⟩
  · obtain ⟨hplen, hpfst, hpsnd, hpb⟩ := allPairLists_sound
      (linear_sum_assignment_mem
        (costMatrix costFn waiting_orders available_couriers lookup)
        waiting_orders.length available_couriers.length)
    refine ⟨?_, ?_, ?_⟩
    · calc ((linear_sum_assignment
            (costMatrix costFn waiting_orders available_couriers lookup)
            waiting_orders.length available_couriers.length).filterMap
            (tier1_keep costFn waiting_orders available_couriers lookup)).length
          ≤ (linear_sum_assignment
            (costMatrix costFn waiting_orders available_couriers lookup)
            waiting_orders.length available_couriers.length).length :=
            List.length_filterMap_le _ _
        _ = min waiting_orders.length available_couriers.length := hplen
    · apply filterMap_proj_nodup _ _ _ (fun rc => orderIdAt waiting_orders rc.1)
      · intro a b hF
        have hsome := (tier1_keep_some hF).2.1
        simp [orderIdAt, hsome]
      · have hmm : (linear_sum_assignment
            (costMatrix costFn waiting_orders available_couriers lookup)
            waiting_orders.length available_couriers.length).map
            (fun rc => orderIdAt waiting_orders rc.1) =
            ((linear_sum_assignment
              (costMatrix costFn waiting_orders available_couriers lookup)
              waiting_orders.length available_couriers.length).map Prod.fst).map
              (orderIdAt waiting_orders) := by
          rw [List.map_map]
          rfl
        rw [hmm]
        refine List.Nodup.map_on ?_ hpfst
        intro x hx y hy hxy
        obtain ⟨rcx, hrcx, rfl⟩ := List.mem_map.mp hx
        obtain ⟨rcy, hrcy, rfl⟩ := List.mem_map.mp hy
        exact orderIdAt_inj hoid (hpb rcx hrcx).1 (hpb rcy hrcy).1 hxy
    · apply filterMap_proj_nodup _ _ _ (fun rc => courierIdAt available_couriers rc.2)
      · intro a b hF
        have hsome := (tier1_keep_some hF).2.2.1
        simp [courierIdAt, hsome]
      · have hmm : (linear_sum_assignment
            (costMatrix costFn waiting_orders available_couriers lookup)
            waiting_orders.length available_couriers.length).map
            (fun rc => courierIdAt available_couriers rc.2) =
            ((linear_sum_assignment
              (costMatrix costFn waiting_orders available_couriers lookup)
              waiting_orders.length available_couriers.length).map Prod.snd).map
              (courierIdAt available_couriers) := by
          rw [List.map_map]
          rfl
        rw [hmm]
        refine List.Nodup.map_on ?_ hpsnd
        intro x hx y hy hxy
        obtain ⟨rcx, hrcx, rfl⟩ := List.mem_map.mp hx
        obtain ⟨rcy, hrcy, rfl⟩ := List.mem_map.mp hy
        exact courierIdAt_inj hcid (hpb rcx hrcx).2 (hpb rcy hrcy).2 hxy

theorem tier2_emit_ids (costFn : CostFn) (lookup : Lookup) (valid_orders : List Order)
    (clusters : List Nat) (cl : Nat) (courier : Courier) :
    (tier2_emit costFn lookup valid_orders clusters cl courier).map (fun t => t.1.order_id) =
      ((valid_orders.zip clusters).filter (fun oc => oc.2 == cl)).map
        (fun oc => oc.1.order_id) := by
  unfold tier2_emit
  rw [List.map_map]
  apply List.map_congr_left
  intro oc _
  show (fun t : Asg => t.1.order_id) (match lookup oc.1.order_id with
    | none => (oc.1, courier, 0)
    | some loc => (oc.1, courier, costFn courier oc.1 loc)) = oc.1.order_id
  cases lookup oc.1.order_id <;> rfl

theorem tier2_zip_ids_nodup {valid_orders : List Order} {clusters : List Nat}
    (hlen : valid_orders.length ≤ clusters.length)
    (hnd : (valid_orders.map Order.order_id).Nodup) :
    ((valid_orders.zip clusters).map (fun oc => oc.1.order_id)).Nodup := by
  have h1 : (valid_orders.zip clusters).map (fun oc => oc.1.order_id) =
      ((valid_orders.zip clusters).map Prod.fst).map Order.order_id := by
    rw [List.map_map]
    rfl
  rw [h1, List.map_fst_zip _ _ hlen]
  exact hnd

theorem tier2_block_mem_ids {costFn : CostFn} {lookup : Lookup} {valid_orders : List Order}
    {clusters : List Nat} {chosen : Option Courier} {cl x : Nat}
    (hx : x ∈ (tier2_cluster_block costFn lookup valid_orders clusters chosen cl).map
      (fun t => t.1.order_id)) :
    ∃ oc ∈ valid_orders.zip clusters, oc.2 = cl ∧ oc.1.order_id = x := by
  cases chosen with
  | none => cases hx
  | some courier =>
    have hx' : x ∈ (tier2_emit costFn lookup valid_orders clusters cl courier).map
        (fun t => t.1.order_id) := hx
    rw [tier2_emit_ids] at hx'
    obtain ⟨oc, hoc, hid⟩ := List.mem_map.mp hx'
    exact ⟨oc, List.mem_of_mem_filter hoc, by simpa using List.of_mem_filter hoc, hid⟩

theorem tier2_flat_nodup (costFn : CostFn) (lookup : Lookup) (valid_orders : List Order)
    (clusters : List Nat) (uniq : List Nat) (choose : Nat → Option Courier)
    (huniq : uniq.Nodup) (hlen : valid_orders.length ≤ clusters.length)
    (hnd : (valid_orders.map Order.order_id).Nodup) :
    ((uniq.flatMap (fun cl =>
        tier2_cluster_block costFn lookup valid_orders clusters (choose cl) cl)).map
      (fun t => t.1.order_id)).Nodup := by
  rw [List.map_flatMap]
  apply List.nodup_flatMap.mpr
  constructor
  · intro cl _
    show ((tier2_cluster_block costFn lookup valid_orders clusters (choose cl) cl).map
      (fun t => t.1.order_id)).Nodup
    cases choose cl with
    | none => exact List.nodup_nil
    | some courier =>
      show ((tier2_emit costFn lookup valid_orders clusters cl courier).map
        (fun t => t.1.order_id)).Nodup
      rw [tier2_emit_ids]
      have hsub : List.Sublist
          ((((valid_orders.zip clusters).filter (fun oc => oc.2 == cl))).map
            (fun oc => oc.1.order_id))
          ((valid_orders.zip clusters).map (fun oc => oc.1.order_id)) :=
        (List.filter_sublist _).map _
      exact hsub.nodup (tier2_zip_ids_nodup hlen hnd)
  · have hpw : uniq.Pairwise (· ≠ ·) := huniq
    refine hpw.imp ?_
    intro a b hne
    intro x hxa hxb
    obtain ⟨oc, hoc, hcla, hida⟩ := tier2_block_mem_ids hxa
    obtain ⟨oc', hoc', hclb, hidb⟩ := tier2_block_mem_ids hxb
    have heq : oc = oc' :=
      List.inj_on_of_nodup_map (tier2_zip_ids_nodup hlen hnd) hoc hoc'
        (by rw [hida, hidb])
    exact hne (by rw [← hcla, heq, hclb])

theorem tier2_orders_once (costFn : CostFn) (dist : ℚ × ℚ → ℚ × ℚ → ℚ)
    (kmeansModel : List (ℚ × ℚ) → Nat → List (ℚ × ℚ)) (max_bundle_size : Nat)
    (waiting_orders : List Order) (available_couriers : List Courier) (lookup : Lookup)
    (hoid : (waiting_orders.map Order.order_id).Nodup) :
    ((Tier2BatchVRP.make_assignments costFn dist kmeansModel max_bundle_size
        waiting_orders available_couriers lookup).map (fun t => t.1.order_id)).Nodup := by
  unfold Tier2BatchVRP.make_assignments
  split
  · exact List.nodup_nil
  · split
    · exact List.nodup_nil
    · apply tier2_flat_nodup
      · exact sortedUnique_nodup _
      · rw [tier2_clusters_length, tier2_locations_length]
      · have hsub : List.Sublist
            ((tier2_valid_orders waiting_orders lookup).map Order.order_id)
            (waiting_orders.map Order.order_id) :=
          (List.filter_sublist _).map _
        exact hsub.nodup hoid

theorem tier3_card (costFn : CostFn) (waiting_orders : List Order)
    (available_couriers : List Courier) (lookup : Lookup)
    (hoid : (waiting_orders.map Order.order_id).Nodup) :
    (Tier3OnlineGreedy.make_assignments costFn waiting_orders available_couriers lookup).length ≤
      min waiting_orders.length available_couriers.length ∧
    ((Tier3OnlineGreedy.make_assignments costFn waiting_orders available_couriers lookup).map
      (fun t => t.1.order_id)).Nodup ∧
    ((Tier3OnlineGreedy.make_assignments costFn waiting_orders available_couriers lookup).map
      (fun t => t.2.1.courier_id)).Nodup := by
  rw [tier3_eq_greedy]
  exact ⟨greedy_length_le costFn lookup waiting_orders available_couriers,
    (greedy_order_ids_sublist costFn lookup waiting_orders available_couriers).nodup hoid,
    greedy_courier_ids_nodup costFn lookup waiting_orders available_couriers⟩

/-- C4 — with distinct order ids and distinct courier ids in the batch:
OptimalBipartite (Tier1) and OnlineGreedy (Tier3) return at most
`min(|orders|, |couriers|)` assignments with each order id and each courier
id appearing at most once; BatchClusterRoute (Tier2) lists each order id at
most once (its courier ids may repeat — bundles). -/
theorem strategies_cardinality (costFn : CostFn) (dist : ℚ × ℚ → ℚ × ℚ → ℚ)
    (kmeansModel : List (ℚ × ℚ) → Nat → List (ℚ × ℚ)) (max_bundle_size : Nat)
    (waiting_orders : List Order) (available_couriers : List Courier) (lookup : Lookup)
    (hoid : (waiting_orders.map Order.order_id).Nodup)
    (hcid : (available_couriers.map Courier.courier_id).Nodup) :
    ((Tier1Baseline.make_assignments costFn waiting_orders available_couriers lookup).length ≤
        min waiting_orders.length available_couriers.length ∧
      ((Tier1Baseline.make_assignments costFn waiting_orders available_couriers lookup).map
        (fun t => t.1.order_id)).Nodup ∧
      ((Tier1Baseline.make_assignments costFn waiting_orders available_couriers lookup).map
        (fun t => t.2.1.courier_id)).Nodup) ∧
    ((Tier3OnlineGreedy.make_assignments costFn waiting_orders available_couriers
        lookup).length ≤ min waiting_orders.length available_couriers.length ∧
      ((Tier3OnlineGreedy.make_assignments costFn waiting_orders available_couriers lookup).map
        (fun t => t.1.order_id)).Nodup ∧
      ((Tier3OnlineGreedy.make_assignments costFn waiting_orders available_couriers lookup).map
        (fun t => t.2.1.courier_id)).Nodup) ∧
    ((Tier2BatchVRP.make_assignments costFn dist kmeansModel max_bundle_size
        waiting_orders available_couriers lookup).map (fun t => t.1.order_id)).Nodup :=
  ⟨tier1_card costFn waiting_orders available_couriers lookup hoid hcid,
   tier3_card costFn waiting_orders available_couriers lookup hoid,
   tier2_orders_once costFn dist kmeansModel max_bundle_size waiting_orders
     available_couriers lookup hoid⟩

/-- Witness for C4 on a concrete batch. -/
theorem strategies_cardinality_witness :
    ((Tier1Baseline.make_assignments (fun _ _ _ => 1) [⟨1⟩, ⟨2⟩] [⟨7, 0, 0⟩]
        (fun n => if n ≤ 2 then some ⟨0, 0, 4, 4, 7⟩ else none)).length ≤
        min [(⟨1⟩ : Order), ⟨2⟩].length [(⟨7, 0, 0⟩ : Courier)].length ∧
      ((Tier1Baseline.make_assignments (fun _ _ _ => 1) [⟨1⟩, ⟨2⟩] [⟨7, 0, 0⟩]
        (fun n => if n ≤ 2 then some ⟨0, 0, 4, 4, 7⟩ else none)).map
        (fun t => t.1.order_id)).Nodup ∧
      ((Tier1Baseline.make_assignments (fun _ _ _ => 1) [⟨1⟩, ⟨2⟩] [⟨7, 0, 0⟩]
        (fun n => if n ≤ 2 then some ⟨0, 0, 4, 4, 7⟩ else none)).map
        (fun t => t.2.1.courier_id)).Nodup) ∧
    ((Tier3OnlineGreedy.make_assignments (fun _ _ _ => 1) [⟨1⟩, ⟨2⟩] [⟨7, 0, 0⟩]
        (fun n => if n ≤ 2 then some ⟨0, 0, 4, 4, 7⟩ else none)).length ≤
        min [(⟨1⟩ : Order), ⟨2⟩].length [(⟨7, 0, 0⟩ : Courier)].length ∧
      ((Tier3OnlineGreedy.make_assignments (fun _ _ _ => 1) [⟨1⟩, ⟨2⟩] [⟨7, 0, 0⟩]
        (fun n => if n ≤ 2 then some ⟨0, 0, 4, 4, 7⟩ else none)).map
        (fun t => t.1.order_id)).Nodup ∧
      ((Tier3OnlineGreedy.make_assignments (fun _ _ _ => 1) [⟨1⟩, ⟨2⟩] [⟨7, 0, 0⟩]
        (fun n => if n ≤ 2 then some ⟨0, 0, 4, 4, 7⟩ else none)).map
        (fun t => t.2.1.courier_id)).Nodup) ∧
    ((Tier2BatchVRP.make_assignments (fun _ _ _ => 1) (fun _ _ => 0) (fun _ _ => []) 5
        [⟨1⟩, ⟨2⟩] [⟨7, 0, 0⟩]
        (fun n => if n ≤ 2 then some ⟨0, 0, 4, 4, 7⟩ else none)).map
      (fun t => t.1.order_id)).Nodup :=
  strategies_cardinality (fun _ _ _ => 1) (fun _ _ => 0) (fun _ _ => []) 5
    [⟨1⟩, ⟨2⟩] [⟨7, 0, 0⟩] (fun n => if n ≤ 2 then some ⟨0, 0, 4, 4, 7⟩ else none)
    (by decide) (by decide)

end Meituan
